import Mathlib

/-!
Verification development for the OCR project-sheet extraction engine
(`docs/parser.js`).  The JavaScript source is embedded shallowly: text is
modelled as `List Char` (JS strings indexed by position), every regular
expression of the source is embedded as an executable matcher that follows
the exact backtracking behaviour of the JS engine on that pattern, and every
extractor function is translated definition by definition.  `matchAll`
scanning is modelled by `allMatches` (leftmost match, then continue from the
end of the match, advancing one position on an empty match, exactly as JS
does); `String.prototype.match` of a non-global pattern is `firstMatchIn`.
-/

set_option maxHeartbeats 4000000
set_option maxRecDepth 16000

/-- Text is a list of characters; positions are list indices, matching the
JS string positions used by the source (all inputs considered are in the
basic multilingual plane, where JS code-unit indices and character indices
coincide). -/
abbrev Chars := List Char

/-- Lower-casing as used by JS `toLowerCase` and the `i` regex flag,
restricted to the characters the source patterns can mention (ASCII plus
the Latin-1 accented letters appearing in the French anchors). -/
def lowerChar (c : Char) : Char :=
  if 'A' ≤ c ∧ c ≤ 'Z' then Char.ofNat (c.toNat + 32)
  else if c = 'À' then 'à' else if c = 'Â' then 'â' else if c = 'Ä' then 'ä'
  else if c = 'É' then 'é' else if c = 'È' then 'è' else if c = 'Ê' then 'ê'
  else if c = 'Ë' then 'ë' else if c = 'Î' then 'î' else if c = 'Ï' then 'ï'
  else if c = 'Ô' then 'ô' else if c = 'Ö' then 'ö' else if c = 'Û' then 'û'
  else if c = 'Ù' then 'ù' else if c = 'Ü' then 'ü' else if c = 'Ç' then 'ç'
  else c

/-- Upper-casing (JS `toUpperCase`) on the same character range. -/
def upperChar (c : Char) : Char :=
  if 'a' ≤ c ∧ c ≤ 'z' then Char.ofNat (c.toNat - 32)
  else if c = 'à' then 'À' else if c = 'â' then 'Â' else if c = 'ä' then 'Ä'
  else if c = 'é' then 'É' else if c = 'è' then 'È' else if c = 'ê' then 'Ê'
  else if c = 'ë' then 'Ë' else if c = 'î' then 'Î' else if c = 'ï' then 'Ï'
  else if c = 'ô' then 'Ô' else if c = 'ö' then 'Ö' else if c = 'û' then 'Û'
  else if c = 'ù' then 'Ù' else if c = 'ü' then 'Ü' else if c = 'ç' then 'Ç'
  else c

/-- JS regex word character class `\w` = `[A-Za-z0-9_]` (ASCII only; the
accented letters are NOT word characters for `\b`). -/
def isWordChar (c : Char) : Bool :=
  (('A' ≤ c ∧ c ≤ 'Z') ∨ ('a' ≤ c ∧ c ≤ 'z') ∨ ('0' ≤ c ∧ c ≤ '9') ∨ c = '_')

/-- JS regex whitespace class `\s` restricted to the ASCII whitespace
characters (the inputs of interest contain no exotic Unicode spaces). -/
def isSpaceChar (c : Char) : Bool :=
  c = ' ' ∨ c = Char.ofNat 9 ∨ c = Char.ofNat 10 ∨ c = Char.ofNat 13 ∨
  c = Char.ofNat 11 ∨ c = Char.ofNat 12

/-- Number of leading characters of `s` satisfying `p`. -/
def countLeading (p : Char → Bool) : Chars → Nat
  | [] => 0
  | c :: t => if p c then countLeading p t + 1 else 0

/-- Decimal value of a digit string (JS `parseInt(d, 10)` on an all-digit
capture, which is always finite). -/
def digitsVal (l : Chars) : Nat :=
  l.foldl (fun a c => a * 10 + (c.toNat - 48)) 0

/-- Case-insensitive literal matcher: `pat` is given lower-case; consumes
`pat.length` characters of `s` when each matches up to `lowerChar`. -/
def litCI : Chars → Chars → Option Nat
  | [], _ => some 0
  | _ :: _, [] => none
  | p :: pt, c :: ct => if lowerChar c = p then (litCI pt ct).map (· + 1) else none

/-- Case-sensitive literal matcher. -/
def litEq : Chars → Chars → Option Nat
  | [], _ => some 0
  | _ :: _, [] => none
  | p :: pt, c :: ct => if c = p then (litEq pt ct).map (· + 1) else none

/-- Whether the previous character (if any) is a word character; a pattern
beginning with `\b` followed by a word character requires this to be false. -/
def prevIsWord : Option Char → Bool
  | none => false
  | some c => isWordChar c

/-- A `\b` placed after a word character: the next character must be absent
or not a word character. -/
def noWordAfter : Chars → Bool
  | [] => true
  | c :: _ => ¬ isWordChar c

/-- Full JS `\b` test between an optional left character and an optional
right character: boundary iff exactly one side is a word character. -/
def wordBoundary (a b : Option Char) : Bool :=
  prevIsWord a ≠ prevIsWord b

/-- A matcher ("pattern at a position"): given the character immediately
before the current position (for `\b`) and the suffix starting at the
position, optionally return (consumed length, capture). -/
abbrev Pat (α : Type) := Option Char → Chars → Option (Nat × α)

/-- First match of `pat` at or after the current position (JS
`RegExp.exec` / non-global `String.match`).  Returns (start index, length,
capture). -/
def findFromAux (pat : Pat α) : Option Char → Chars → Nat → Option (Nat × Nat × α)
  | prev, [], idx => (pat prev []).map (fun p => (idx, p.1, p.2))
  | prev, c :: rest, idx =>
    match pat prev (c :: rest) with
    | some (n, a) => some (idx, n, a)
    | none => findFromAux pat (some c) rest (idx + 1)

/-- First match of `pat` in `s`, scanning from the start of the string. -/
def firstMatchIn (pat : Pat α) (s : Chars) : Option (Nat × Nat × α) :=
  findFromAux pat none s 0

/-- All matches of `pat` in document order (JS `matchAll`): find the
leftmost match, then continue from its end (or one further on an empty
match).  `fuel` bounds the recursion; `allMatches` supplies enough fuel for
the scan to run to the end of the string. -/
def allMatchesAux (pat : Pat α) : Nat → Option Char → Chars → Nat → List (Nat × Nat × α)
  | 0, _, _, _ => []
  | fuel + 1, prev, s, idx =>
    match findFromAux pat prev s idx with
    | none => []
    | some (i, n, a) =>
      let step := (i - idx) + Nat.max n 1
      (i, n, a) :: allMatchesAux pat fuel ((s.drop (step - 1)).head?) (s.drop step) (idx + step)

/-- All matches of `pat` in `s` (JS `String.matchAll`). -/
def allMatches (pat : Pat α) (s : Chars) : List (Nat × Nat × α) :=
  allMatchesAux pat (s.length + 1) none s 0

/-- Global replace (JS `String.replace` with a `g` pattern): each match is
replaced by `repl`, scanning resumes after the match.  The source only uses
patterns that never match the empty string. -/
def replaceAllAux (patAt : Option Char → Chars → Option Nat) (repl : Chars) :
    Nat → Option Char → Chars → Chars
  | 0, _, s => s
  | _ + 1, _, [] => []
  | fuel + 1, prev, c :: rest =>
    match patAt prev (c :: rest) with
    | some (n + 1) =>
      repl ++ replaceAllAux patAt repl fuel (((c :: rest).drop n).head?) ((c :: rest).drop (n + 1))
    | _ => c :: replaceAllAux patAt repl fuel (some c) rest

/-- Global replace entry point. -/
def replaceAll (patAt : Option Char → Chars → Option Nat) (repl : Chars) (s : Chars) : Chars :=
  replaceAllAux patAt repl (s.length + 1) none s

/-- JS `String.includes` (contiguous sublist test). -/
def containsSub (needle hay : Chars) : Bool :=
  if needle.isPrefixOf hay then true
  else match hay with
    | [] => false
    | _ :: t => containsSub needle t

/-- Case-insensitive containment of a lower-case literal (used for tests
such as `/\+1x/i.test(s)`). -/
def containsLitCI (pat hay : Chars) : Bool :=
  if (litCI pat hay).isSome then true
  else match hay with
    | [] => false
    | _ :: t => containsLitCI pat t

/-- JS `String.slice(a, b)` on positions (clamping, `b ≥ a` assumed by all
call sites of the source). -/
def sliceChars (l : Chars) (a b : Nat) : Chars := (l.drop a).take (b - a)

/-- JS `String.trim` (remove leading and trailing whitespace). -/
def trimChars (l : Chars) : Chars :=
  ((l.dropWhile isSpaceChar).reverse.dropWhile isSpaceChar).reverse

/-- Convenience: string literal to character list. -/
def strL (s : String) : Chars := s.toList

/-! ### Base patterns of the source (`Regex de base`) -/

/-- `RAC_RE = /\bRAC-[A-Z]{3}-\d{2}-\d{6}\b/g` (case-sensitive, fixed
length 17). -/
def racAt : Pat Chars := fun prev s =>
  if prevIsWord prev then none else
  match s with
  | 'R' :: 'A' :: 'C' :: '-' :: a :: b :: c :: '-' :: d1 :: d2 :: '-' ::
      e1 :: e2 :: e3 :: e4 :: e5 :: e6 :: rest =>
    if ([a, b, c].all fun x => 'A' ≤ x ∧ x ≤ 'Z') ∧
       ([d1, d2, e1, e2, e3, e4, e5, e6].all Char.isDigit) ∧ noWordAfter rest then
      some (17, s.take 17)
    else none
  | _ => none

/-- `P_KVA_RE = /\bP\s*=\s*(\d{1,4})\s*KVA\b/i`.  The digit run must have
length 1 to 4: a longer run cannot match (backtracking to a shorter prefix
leaves a digit where `\s*K` is required). -/
def pKvaAt : Pat Nat := fun prev s =>
  if prevIsWord prev then none else
  match s with
  | c :: r1 =>
    if lowerChar c = 'p' then
      let k1 := countLeading isSpaceChar r1
      match r1.drop k1 with
      | '=' :: r2 =>
        let k2 := countLeading isSpaceChar r2
        let r3 := r2.drop k2
        let d := countLeading Char.isDigit r3
        if d = 0 ∨ 4 < d then none else
        let r4 := r3.drop d
        let k3 := countLeading isSpaceChar r4
        match litCI (strL "kva") (r4.drop k3) with
        | some _ =>
          if noWordAfter (r4.drop (k3 + 3)) then
            some (1 + k1 + 1 + k2 + d + k3 + 3, digitsVal (r3.take d))
          else none
        | none => none
      | _ => none
    else none
  | [] => none

/-- Optional `(?:\s*mm[²2\?]?)?` inside `SECTION_RE`: returns the consumed
length (0 when the group is absent; taking the group when present is the
behaviour forced by backtracking, since the remainder of the pattern cannot
start with the letter m). -/
def mmOpt (s : Chars) : Nat :=
  let k := countLeading isSpaceChar s
  match litCI (strL "mm") (s.drop k) with
  | none => 0
  | some _ =>
    match s.drop (k + 2) with
    | c :: _ => if c = '²' ∨ c = '2' ∨ c = '?' then k + 3 else k + 2
    | [] => k + 2

/-- Optional `(?:\s*\+\s*1x\s*\d+(?:\s*mm[²2\?]?)?)?` inside `SECTION_RE`:
`some 0` when the `+` is absent; `none` when a `+` is present but the group
cannot be completed (then the whole section match fails, because `\s*A[IL]`
cannot start at a `+`). -/
def plusOpt (s : Chars) : Option Nat :=
  let k := countLeading isSpaceChar s
  match s.drop k with
  | '+' :: r1 =>
    let k2 := countLeading isSpaceChar r1
    match r1.drop k2 with
    | c1 :: cx :: r3 =>
      if c1 = '1' ∧ lowerChar cx = 'x' then
        let k3 := countLeading isSpaceChar r3
        let r4 := r3.drop k3
        let d := countLeading Char.isDigit r4
        if d = 0 then none
        else some (k + 1 + k2 + 2 + k3 + d + mmOpt (r4.drop d))
      else none
    | _ => none
  | _ => some 0

/-- `SECTION_RE = /(?<section>3x\s*\d+(?:\s*mm[²2\?]?)?(?:\s*\+\s*1x\s*\d+`
`(?:\s*mm[²2\?]?)?)?\s*A[IL])/ig`.  The capture is the whole match text. -/
def sectionAt : Pat Chars := fun _ s =>
  match s with
  | c3 :: cx :: r1 =>
    if c3 = '3' ∧ lowerChar cx = 'x' then
      let k1 := countLeading isSpaceChar r1
      let r2 := r1.drop k1
      let d := countLeading Char.isDigit r2
      if d = 0 then none else
      let r3 := r2.drop d
      let m1 := mmOpt r3
      let r4 := r3.drop m1
      match plusOpt r4 with
      | none => none
      | some pl =>
        let r5 := r4.drop pl
        let k2 := countLeading isSpaceChar r5
        match r5.drop k2 with
        | ca :: cl :: _ =>
          if lowerChar ca = 'a' ∧ (lowerChar cl = 'i' ∨ lowerChar cl = 'l') then
            let n := 2 + k1 + d + m1 + pl + k2 + 2
            some (n, s.take n)
          else none
        | _ => none
    else none
  | _ => none

/-- `LENGTH_RE = /(\d{1,4})\s*m\b|(\d{1,4})m\b/i`.  The second alternative
is subsumed by the first (`\s*` may be empty); a digit run longer than 4
fails at its own start position (any shorter prefix is followed by a digit
where `\s*m` is required). -/
def lengthAt : Pat Nat := fun _ s =>
  let d := countLeading Char.isDigit s
  if d = 0 ∨ 4 < d then none else
  let r1 := s.drop d
  let k := countLeading isSpaceChar r1
  match r1.drop k with
  | c :: rest =>
    if lowerChar c = 'm' ∧ noWordAfter rest then some (d + k + 1, digitsVal (s.take d))
    else none
  | [] => none

/-- `RAS_RE = /\bRAS\b/i`. -/
def rasAt : Pat Unit := fun prev s =>
  if prevIsWord prev then none else
  match litCI (strL "ras") s with
  | some _ => if noWordAfter (s.drop 3) then some (3, ()) else none
  | none => none

/-- The word part `jonction(?:s)?\b` of `JONCTION_RE` (the optional `s` is
taken when present; if taking it breaks the `\b` then dropping it does
too, since the next character is then the word character s itself). -/
def jWordAt (s : Chars) : Option Nat :=
  match litCI (strL "jonction") s with
  | none => none
  | some _ =>
    match s.drop 8 with
    | [] => some 8
    | c :: r2 =>
      if lowerChar c = 's' then
        match r2 with
        | [] => some 9
        | c2 :: _ => if isWordChar c2 then none else some 9
      else if isWordChar c then none else some 8

/-- The word part `remont[ée]e(?:s)?\s+a[ée]ro[-\s]?souterraine(?:s)?\b`
of `REMONTEE_RE`. -/
def rWordAt (s : Chars) : Option Nat :=
  match litCI (strL "remont") s with
  | none => none
  | some _ =>
    match s.drop 6 with
    | ce :: r1 =>
      if lowerChar ce = 'e' ∨ lowerChar ce = 'é' then
        match r1 with
        | c2 :: r2 =>
          if lowerChar c2 = 'e' then
            let base := 8
            let sTaken := match r2 with
              | c3 :: _ => if lowerChar c3 = 's' then 1 else 0
              | [] => 0
            let r3 := r2.drop sTaken
            let w := countLeading isSpaceChar r3
            if w = 0 then none else
            match r3.drop w with
            | ca :: r4 =>
              if lowerChar ca = 'a' then
                match r4 with
                | ce2 :: r5 =>
                  if lowerChar ce2 = 'e' ∨ lowerChar ce2 = 'é' then
                    match litCI (strL "ro") r5 with
                    | none => none
                    | some _ =>
                      let r6 := r5.drop 2
                      let dash := match r6 with
                        | c6 :: _ => if c6 = '-' ∨ isSpaceChar c6 then 1 else 0
                        | [] => 0
                      match litCI (strL "souterraine") (r6.drop dash) with
                      | none => none
                      | some _ =>
                        let r7 := r6.drop (dash + 11)
                        let consumed := base + sTaken + w + 4 + dash + 11
                        match r7 with
                        | [] => some consumed
                        | c7 :: r8 =>
                          if lowerChar c7 = 's' then
                            match r8 with
                            | [] => some (consumed + 1)
                            | c8 :: _ => if isWordChar c8 then none else some (consumed + 1)
                          else if isWordChar c7 then none else some consumed
                  else none
                | [] => none
              else none
            | [] => none
          else none
        | [] => none
      else none
    | [] => none

/-- Shared tail `\s*(?:(?<n>\d+)\s+)?<word>` of the accessory patterns:
optional cardinal immediately before the vocabulary word.  When digits are
present but not followed by whitespace and the word, the group is dropped;
the word then has to start at the first digit, which fails (both vocabulary
words start with a letter). -/
def cardTail (word : Chars → Option Nat) (s : Chars) : Option (Nat × Option Nat) :=
  let k := countLeading isSpaceChar s
  let s1 := s.drop k
  let d := countLeading Char.isDigit s1
  let numbered :=
    if d = 0 then none else
    let s2 := s1.drop d
    let w := countLeading isSpaceChar s2
    if w = 0 then none else
    match word (s2.drop w) with
    | some n => some (k + d + w + n, some (digitsVal (s1.take d)))
    | none => none
  match numbered with
  | some r => some r
  | none => (word s1).map (fun n => (k + n, (none : Option Nat)))

/-- Optional leading connective `(?:via|par|avec)?` of the accessory
patterns, alternatives tried in source order, then the bare tail. -/
def accAt (word : Chars → Option Nat) : Pat (Option Nat) := fun _ s =>
  let tryConn : Chars → Option (Nat × Option Nat) := fun c =>
    match litCI c s with
    | some n => (cardTail word (s.drop n)).map (fun p => (n + p.1, p.2))
    | none => none
  ((tryConn (strL "via")).orElse fun _ =>
    (tryConn (strL "par")).orElse fun _ =>
      (tryConn (strL "avec")).orElse fun _ => cardTail word s)

/-- `JONCTION_RE = /(?:via|par|avec)?\s*(?:(?<n>\d+)\s+)?jonction(?:s)?\b/ig`. -/
def jonctionAt : Pat (Option Nat) := accAt jWordAt

/-- `REMONTEE_RE`, same shape over the riser vocabulary. -/
def remonteeAt : Pat (Option Nat) := accAt rWordAt

/-- `PALIER_RE = /\b(50|100|160|250|400|630|1000)\b/` (both as the global
scan pattern and as `_palierOne()`).  Alternatives in source order; `100`
before `1000` is resolved by the trailing `\b`. -/
def palierCands : List (Chars × Nat) :=
  [(strL "50", 50), (strL "100", 100), (strL "160", 160), (strL "250", 250),
   (strL "400", 400), (strL "630", 630), (strL "1000", 1000)]

def palierAt : Pat Nat := fun prev s =>
  if prevIsWord prev then none else
  palierCands.findSome? (fun cand =>
    match litEq cand.1 s with
    | some n => if noWordAfter (s.drop n) then some (n, cand.2) else none
    | none => none)

/-- `SURPLUS_RE = /\bSURPLUS\b/i`. -/
def surplusAt : Pat Unit := fun prev s =>
  if prevIsWord prev then none else
  match litCI (strL "surplus") s with
  | some _ => if noWordAfter (s.drop 7) then some (7, ()) else none
  | none => none

/-- `PRM14_RE = /\b\d{14}\b/`: exactly fourteen digits between word
boundaries (a longer run fails everywhere inside it, and a trailing word
character defeats the closing boundary). -/
def prm14At : Pat Chars := fun prev s =>
  if prevIsWord prev then none else
  let d := countLeading Char.isDigit s
  if d = 14 then
    if noWordAfter (s.drop 14) then some (14, s.take 14) else none
  else none

/-- `PCONSO_VAL_RE = /(?:P\s*conso|Pconso)\s*(?:=|:)?\s*(\d{1,4})\s*KVA\b/i`
(the second alternative is subsumed by the first). -/
def pconsoAt : Pat Nat := fun _ s =>
  match s with
  | c :: r1 =>
    if lowerChar c = 'p' then
      let k1 := countLeading isSpaceChar r1
      match litCI (strL "conso") (r1.drop k1) with
      | none => none
      | some _ =>
        let r2 := r1.drop (k1 + 5)
        let k2 := countLeading isSpaceChar r2
        let sep := match r2.drop k2 with
          | c2 :: _ => if c2 = '=' ∨ c2 = ':' then 1 else 0
          | [] => 0
        let r3 := r2.drop (k2 + sep)
        let k3 := countLeading isSpaceChar r3
        let r4 := r3.drop k3
        let d := countLeading Char.isDigit r4
        if d = 0 ∨ 4 < d then none else
        let r5 := r4.drop d
        let k4 := countLeading isSpaceChar r5
        match litCI (strL "kva") (r5.drop k4) with
        | some _ =>
          if noWordAfter (r5.drop (k4 + 3)) then
            some (1 + k1 + 5 + k2 + sep + k3 + d + k4 + 3, digitsVal (r4.take d))
          else none
        | none => none
    else none
  | [] => none

/-- `POSTE_RE = /\b(\d{5})P(\d{4})\b/` (case-sensitive `P`; the closing
boundary requires a non-word character, or the end, after the last four
digits). -/
def posteNumAt : Pat Chars := fun prev s =>
  if prevIsWord prev then none else
  let d1 := countLeading Char.isDigit s
  if d1 = 5 then
    match s.drop 5 with
    | 'P' :: r1 =>
      let d2 := countLeading Char.isDigit r1
      if d2 = 4 then
        if noWordAfter (r1.drop 4) then some (10, s.take 10) else none
      else none
    | _ => none
  else none

/-! ### Anchor patterns -/

/-- `HTA_START_RE = /Extension\s+du\s+r[ée]seau\s+HTA/ig`. -/
def htaStartAt : Pat Unit := fun _ s =>
  match litCI (strL "extension") s with
  | none => none
  | some _ =>
    let r1 := s.drop 9
    let w1 := countLeading isSpaceChar r1
    if w1 = 0 then none else
    match litCI (strL "du") (r1.drop w1) with
    | none => none
    | some _ =>
      let r2 := r1.drop (w1 + 2)
      let w2 := countLeading isSpaceChar r2
      if w2 = 0 then none else
      match r2.drop w2 with
      | cr :: ce :: r3 =>
        if lowerChar cr = 'r' ∧ (lowerChar ce = 'e' ∨ lowerChar ce = 'é') then
          match litCI (strL "seau") r3 with
          | none => none
          | some _ =>
            let r4 := r3.drop 4
            let w3 := countLeading isSpaceChar r4
            if w3 = 0 then none else
            match litCI (strL "hta") (r4.drop w3) with
            | some _ => some (9 + w1 + 2 + w2 + 2 + 4 + w3 + 3, ())
            | none => none
        else none
      | _ => none

/-- The mandatory part `poste[-\s]+source\b` of `HTA_END_RE`. -/
def posteSourceAt (s : Chars) : Option Nat :=
  match litCI (strL "poste") s with
  | none => none
  | some _ =>
    let r1 := s.drop 5
    let k := countLeading (fun c => c = '-' ∨ isSpaceChar c) r1
    if k = 0 then none else
    match litCI (strL "source") (r1.drop k) with
    | some _ => if noWordAfter (r1.drop (k + 6)) then some (5 + k + 6) else none
    | none => none

/-- `HTA_END_RE = /(?:\bdu\s+)?poste[-\s]+source\b/ig`: the optional `du`
prefix is tried first (JS greedy optional group), falling back to the bare
form when the prefixed attempt fails. -/
def htaEndAt : Pat Unit := fun prev s =>
  let withDu : Option (Nat × Unit) :=
    if prevIsWord prev then none else
    match litCI (strL "du") s with
    | none => none
    | some _ =>
      let r1 := s.drop 2
      let w := countLeading isSpaceChar r1
      if w = 0 then none else
      (posteSourceAt (r1.drop w)).map (fun n => (2 + w + n, ()))
  withDu.orElse fun _ => (posteSourceAt s).map (fun n => (n, ()))

/-- `BT_REPRISE_START_RE = /Reprise\s+du\s+r[ée]seau\s+BT\s+existant/ig`. -/
def btRepriseStartAt : Pat Unit := fun _ s =>
  match litCI (strL "reprise") s with
  | none => none
  | some _ =>
    let r1 := s.drop 7
    let w1 := countLeading isSpaceChar r1
    if w1 = 0 then none else
    match litCI (strL "du") (r1.drop w1) with
    | none => none
    | some _ =>
      let r2 := r1.drop (w1 + 2)
      let w2 := countLeading isSpaceChar r2
      if w2 = 0 then none else
      match r2.drop w2 with
      | cr :: ce :: r3 =>
        if lowerChar cr = 'r' ∧ (lowerChar ce = 'e' ∨ lowerChar ce = 'é') then
          match litCI (strL "seau") r3 with
          | none => none
          | some _ =>
            let r4 := r3.drop 4
            let w3 := countLeading isSpaceChar r4
            if w3 = 0 then none else
            match litCI (strL "bt") (r4.drop w3) with
            | none => none
            | some _ =>
              let r5 := r4.drop (w3 + 2)
              let w4 := countLeading isSpaceChar r5
              if w4 = 0 then none else
              match litCI (strL "existant") (r5.drop w4) with
              | some _ => some (7 + w1 + 2 + w2 + 2 + 4 + w3 + 2 + w4 + 8, ())
              | none => none
        else none
      | _ => none

/-- `\bRaccordement\s+en\b` (this is `RACCORD_START_RE` and also the first
alternative of `BT_END_RE`). -/
def raccEnAt : Pat Unit := fun prev s =>
  if prevIsWord prev then none else
  match litCI (strL "raccordement") s with
  | none => none
  | some _ =>
    let r1 := s.drop 12
    let w := countLeading isSpaceChar r1
    if w = 0 then none else
    match litCI (strL "en") (r1.drop w) with
    | some _ => if noWordAfter (r1.drop (w + 2)) then some (12 + w + 2, ()) else none
    | none => none

/-- `D[eé]placement\s+du\s+poste\s+DP\b` (covering both the accented and the
plain alternative of `BT_END_RE` / `RACCORD_FALLBACK_END_RE`). -/
def deplacementPosteAt (s : Chars) : Option Nat :=
  match s with
  | cd :: ce :: r1 =>
    if lowerChar cd = 'd' ∧ (lowerChar ce = 'e' ∨ lowerChar ce = 'é') then
      match litCI (strL "placement") r1 with
      | none => none
      | some _ =>
        let r2 := r1.drop 9
        let w1 := countLeading isSpaceChar r2
        if w1 = 0 then none else
        match litCI (strL "du") (r2.drop w1) with
        | none => none
        | some _ =>
          let r3 := r2.drop (w1 + 2)
          let w2 := countLeading isSpaceChar r3
          if w2 = 0 then none else
          match litCI (strL "poste") (r3.drop w2) with
          | none => none
          | some _ =>
            let r4 := r3.drop (w2 + 5)
            let w3 := countLeading isSpaceChar r4
            if w3 = 0 then none else
            match litCI (strL "dp") (r4.drop w3) with
            | some _ =>
              if noWordAfter (r4.drop (w3 + 2)) then some (2 + 9 + w1 + 2 + w2 + 5 + w3 + 2)
              else none
            | none => none
    else none
  | _ => none

/-- `Extension\s+du\s+r[ée]seau\s+HTA\b` (alternative of the end anchors:
the HTA start anchor followed by a word boundary). -/
def extensionHtaEndAt (s : Chars) : Option Nat :=
  match htaStartAt none s with
  | some (n, _) => if noWordAfter (s.drop n) then some n else none
  | none => none

/-- `LEGENDE\b`. -/
def legendeAt (s : Chars) : Option Nat :=
  match litCI (strL "legende") s with
  | some _ => if noWordAfter (s.drop 7) then some 7 else none
  | none => none

/-- `BT_END_RE = /\b(?:Raccordement\s+en\b|Déplacement\s+du\s+poste\s+DP\b|`
`Deplacement\s+du\s+poste\s+DP\b|Extension\s+du\s+r[ée]seau\s+HTA\b|LEGENDE\b)\b/i`.
All alternatives begin with distinct word characters, so the leading `\b`
is a single previous-character test. -/
def btEndAt : Pat Unit := fun prev s =>
  if prevIsWord prev then none else
  (match raccEnAt none s with
   | some (n, _) => some (n, ())
   | none =>
     match deplacementPosteAt s with
     | some n => some (n, ())
     | none =>
       match extensionHtaEndAt s with
       | some n => some (n, ())
       | none => (legendeAt s).map (fun n => (n, ())))

/-- `BT_FUSIBLES_RE = /fusibles?\s*(?<fusibles>\d{2,4})\s*A\b/i`. -/
def fusiblesAt : Pat Nat := fun _ s =>
  match litCI (strL "fusible") s with
  | none => none
  | some _ =>
    let sTaken := match s.drop 7 with
      | c :: _ => if lowerChar c = 's' then 1 else 0
      | [] => 0
    let r1 := s.drop (7 + sTaken)
    let k1 := countLeading isSpaceChar r1
    let r2 := r1.drop k1
    let d := countLeading Char.isDigit r2
    if d < 2 ∨ 4 < d then none else
    let r3 := r2.drop d
    let k2 := countLeading isSpaceChar r3
    match r3.drop k2 with
    | c :: rest =>
      if lowerChar c = 'a' ∧ noWordAfter rest then
        some (7 + sTaken + k1 + d + k2 + 1, digitsVal (r2.take d))
      else none
    | [] => none

/-- `RACCORD_END_RE = /\bA\)/i`. -/
def raccordEndAt : Pat Unit := fun prev s =>
  if prevIsWord prev then none else
  match s with
  | ca :: cp :: _ => if lowerChar ca = 'a' ∧ cp = ')' then some (2, ()) else none
  | _ => none

/-- `Protection\b` alternative of `RACCORD_FALLBACK_END_RE`. -/
def protectionAt (s : Chars) : Option Nat :=
  match litCI (strL "protection") s with
  | some _ => if noWordAfter (s.drop 10) then some 10 else none
  | none => none

/-- `Reprise\s+du\s+r[ée]seau\s+BT\s+existant\b` alternative. -/
def repriseBtEndAt (s : Chars) : Option Nat :=
  match btRepriseStartAt none s with
  | some (n, _) => if noWordAfter (s.drop n) then some n else none
  | none => none

/-- `RACCORD_FALLBACK_END_RE`. -/
def raccordFallbackEndAt : Pat Unit := fun prev s =>
  if prevIsWord prev then none else
  (match protectionAt s with
   | some n => some (n, ())
   | none =>
     match deplacementPosteAt s with
     | some n => some (n, ())
     | none =>
       match repriseBtEndAt s with
       | some n => some (n, ())
       | none =>
         match extensionHtaEndAt s with
         | some n => some (n, ())
         | none => (legendeAt s).map (fun n => (n, ())))

/-- The keyword alternative `D[ée]placement` of `POSTE_EVT_START_RE`. -/
def kwDeplacement (s : Chars) : Option Nat :=
  match s with
  | c0 :: c1 :: r =>
    if lowerChar c0 = 'd' ∧ (lowerChar c1 = 'e' ∨ lowerChar c1 = 'é') then
      match litCI (strL "placement") r with
      | some _ => some 11
      | none => none
    else none
  | _ => none

/-- The keyword alternative `Cr[ée]ation`. -/
def kwCreation (s : Chars) : Option Nat :=
  match s with
  | c0 :: c1 :: c2 :: r =>
    if lowerChar c0 = 'c' ∧ lowerChar c1 = 'r' ∧ (lowerChar c2 = 'e' ∨ lowerChar c2 = 'é') then
      match litCI (strL "ation") r with
      | some _ => some 8
      | none => none
    else none
  | _ => none

/-- The keyword alternative `Adaptation`. -/
def kwAdaptation (s : Chars) : Option Nat :=
  (litCI (strL "adaptation") s).map (fun _ => 10)

/-- The keyword alternative `Mutation`. -/
def kwMutation (s : Chars) : Option Nat :=
  (litCI (strL "mutation") s).map (fun _ => 8)

/-- The keyword group of `POSTE_EVT_START_RE`, alternatives in source
order (their first letters are distinct, so the disjunction is
deterministic). -/
def posteKeywordAt (s : Chars) : Option Nat :=
  match kwDeplacement s with
  | some n => some n
  | none =>
    match kwCreation s with
    | some n => some n
    | none =>
      match kwAdaptation s with
      | some n => some n
      | none => kwMutation s

/-- `POSTE_EVT_START_RE = /\b(D[ée]placement|Cr[ée]ation|Adaptation|Mutation)`
`\s+du\s+poste\s+DP\b/i`; the capture is the keyword text as it appears in
the input. -/
def posteEvtStartAt : Pat Chars := fun prev s =>
  if prevIsWord prev then none else
  match posteKeywordAt s with
  | none => none
  | some k =>
    let r1 := s.drop k
    let w1 := countLeading isSpaceChar r1
    if w1 = 0 then none else
    match litCI (strL "du") (r1.drop w1) with
    | none => none
    | some _ =>
      let r2 := r1.drop (w1 + 2)
      let w2 := countLeading isSpaceChar r2
      if w2 = 0 then none else
      match litCI (strL "poste") (r2.drop w2) with
      | none => none
      | some _ =>
        let r3 := r2.drop (w2 + 5)
        let w3 := countLeading isSpaceChar r3
        if w3 = 0 then none else
        match litCI (strL "dp") (r3.drop w3) with
        | some _ =>
          if noWordAfter (r3.drop (w3 + 2)) then
            some (k + w1 + 2 + w2 + 5 + w3 + 2, s.take k)
          else none
        | none => none

/-- `POSTE_EVT_END_RE = /\bprise\s*1\b/i`. -/
def posteEvtEndAt : Pat Unit := fun prev s =>
  if prevIsWord prev then none else
  match litCI (strL "prise") s with
  | none => none
  | some _ =>
    let r1 := s.drop 5
    let k := countLeading isSpaceChar r1
    match r1.drop k with
    | '1' :: rest => if noWordAfter rest then some (5 + k + 1, ()) else none
    | _ => none

/-- The token class `[A-Z0-9\-]` of `POSTE_TYPE_APRES_RE` (with the `i`
flag lower-case letters match too). -/
def isTokenChar (c : Char) : Bool :=
  ('A' ≤ c ∧ c ≤ 'Z') ∨ ('a' ≤ c ∧ c ≤ 'z') ∨ ('0' ≤ c ∧ c ≤ '9') ∨ c = '-'

/-- Greedy `{2,10}` token with a trailing `\b`: take the longest prefix of
2 to 10 class characters after which a word boundary holds. -/
def tokTakeDown (r : Chars) : Nat → Option Nat
  | 0 => none
  | 1 => none
  | k + 2 =>
    if wordBoundary ((r.drop (k + 1)).head?) ((r.drop (k + 2)).head?) then some (k + 2)
    else tokTakeDown r (k + 1)

/-- `POSTE_TYPE_APRES_RE = /\badaptation\s+en\s+type\s+(?<type>[A-Z0-9\-]{2,10})\b/i`;
capture: the token text. -/
def typeApresAt : Pat Chars := fun prev s =>
  if prevIsWord prev then none else
  match litCI (strL "adaptation") s with
  | none => none
  | some _ =>
    let r1 := s.drop 10
    let w1 := countLeading isSpaceChar r1
    if w1 = 0 then none else
    match litCI (strL "en") (r1.drop w1) with
    | none => none
    | some _ =>
      let r2 := r1.drop (w1 + 2)
      let w2 := countLeading isSpaceChar r2
      if w2 = 0 then none else
      match litCI (strL "type") (r2.drop w2) with
      | none => none
      | some _ =>
        let r3 := r2.drop (w2 + 4)
        let w3 := countLeading isSpaceChar r3
        if w3 = 0 then none else
        let r4 := r3.drop w3
        let run := countLeading isTokenChar r4
        match tokTakeDown r4 (Nat.min 10 run) with
        | some k => some (10 + w1 + 2 + w2 + 4 + w3 + k, r4.take k)
        | none => none

/-- `/\bde\s+type\b/i` of `fallbackTypeAvantPower`. -/
def deTypeAt : Pat Unit := fun prev s =>
  if prevIsWord prev then none else
  match litCI (strL "de") s with
  | none => none
  | some _ =>
    let r1 := s.drop 2
    let w := countLeading isSpaceChar r1
    if w = 0 then none else
    match litCI (strL "type") (r1.drop w) with
    | some _ => if noWordAfter (r1.drop (w + 4)) then some (2 + w + 4, ()) else none
    | none => none

/-- `/d['’]une\s+puissance\s+de/i` of `fallbackTypeApresPower` (the class
holds the straight and the curly apostrophe). -/
def puissanceDeAt : Pat Unit := fun _ s =>
  match s with
  | cd :: ca :: r1 =>
    if lowerChar cd = 'd' ∧ (ca = Char.ofNat 39 ∨ ca = Char.ofNat 8217) then
      match litCI (strL "une") r1 with
      | none => none
      | some _ =>
        let r2 := r1.drop 3
        let w1 := countLeading isSpaceChar r2
        if w1 = 0 then none else
        match litCI (strL "puissance") (r2.drop w1) with
        | none => none
        | some _ =>
          let r3 := r2.drop (w1 + 9)
          let w2 := countLeading isSpaceChar r3
          if w2 = 0 then none else
          match litCI (strL "de") (r3.drop w2) with
          | some _ => some (2 + 3 + w1 + 9 + w2 + 2, ())
          | none => none
    else none
  | _ => none

/-- `/c[âa]ble/i` match at the head of `s` (no boundaries). -/
def cableHereB (s : Chars) : Bool :=
  match s with
  | c0 :: c1 :: r =>
    lowerChar c0 = 'c' ∧ (lowerChar c1 = 'a' ∨ lowerChar c1 = 'â') ∧
    (litCI (strL "ble") r).isSome
  | _ => false

/-- `/c[âa]ble/i.test(s)`. -/
def cableTest : Chars → Bool
  | [] => false
  | c :: t => cableHereB (c :: t) || cableTest t

/-- `/\bHTA\b/ig` of the HTA fallback pass. -/
def htaWordAt : Pat Unit := fun prev s =>
  if prevIsWord prev then none else
  match litCI (strL "hta") s with
  | some _ => if noWordAfter (s.drop 3) then some (3, ()) else none
  | none => none

/-- `\bCABINE\s+HAUTE\b` (run case-insensitively by `scanTypeOccurrences`
and on upper-cased text by `normTypePoste`; `litCI` covers both). -/
def cabineHauteAt : Pat Unit := fun prev s =>
  if prevIsWord prev then none else
  match litCI (strL "cabine") s with
  | none => none
  | some _ =>
    let r1 := s.drop 6
    let w := countLeading isSpaceChar r1
    if w = 0 then none else
    match litCI (strL "haute") (r1.drop w) with
    | some _ => if noWordAfter (r1.drop (w + 5)) then some (6 + w + 5, ()) else none
    | none => none

/-- `\bCABINE\s+BASSE\b`. -/
def cabineBasseAt : Pat Unit := fun prev s =>
  if prevIsWord prev then none else
  match litCI (strL "cabine") s with
  | none => none
  | some _ =>
    let r1 := s.drop 6
    let w := countLeading isSpaceChar r1
    if w = 0 then none else
    match litCI (strL "basse") (r1.drop w) with
    | some _ => if noWordAfter (r1.drop (w + 5)) then some (6 + w + 5, ()) else none
    | none => none

/-- `\b<code>\b/i` for a fixed type code (`code` given lower-case). -/
def codeAt (code : Chars) : Pat Unit := fun prev s =>
  if prevIsWord prev then none else
  match litCI code s with
  | some n => if noWordAfter (s.drop n) then some (n, ()) else none
  | none => none

/-! ### Data model (section 3 of the source record shapes) -/

/-- `AccessorySet`. -/
structure AccessorySet where
  jonctions : Nat
  remontees_aero_souterraines : Nat
  ras : Bool
deriving Repr, DecidableEq

/-- Internal cable-spec pair of `findPairsWithSpans` (fields `longueur_m`,
`section`, `liaison`, `_has_plus_1x`, `_span` of the source; the JS field
name `section` is a Lean keyword and is rendered `sect` in every record of
this file). -/
structure CablePair where
  longueur_m : Nat
  sect : Chars
  liaison : Chars
  hasPlus1x : Bool
  span : Nat × Nat
deriving Repr, DecidableEq

/-- `HtaExtensionItem`. -/
structure HtaItem where
  longueur_m : Nat
  sect : Chars
  liaison : Chars
  accessoires : AccessorySet
deriving Repr, DecidableEq

/-- `BtRepriseItem`. -/
structure BtRepriseItem where
  longueur_m : Nat
  sect : Chars
  protection_a : Option Nat
  liaison : Chars
  accessoires : AccessorySet
deriving Repr, DecidableEq

/-- The two raccordement type strings of the source. -/
inductive TypeRacc where
  | depart_direct
  | derivation
deriving Repr, DecidableEq

/-- `BtRaccordement`. -/
structure BtRaccordement where
  type_raccordement : Option TypeRacc
  sect : Option Chars
  longueur_m : Option Nat
  accessoires : AccessorySet
deriving Repr, DecidableEq

/-- The four operation strings of `extractPosteDpTravaux`. -/
inductive OpKind where
  | deplacement
  | creation
  | adaptation
  | mutation
deriving Repr, DecidableEq

/-- `type_avant` component of `PosteDpTravaux`. -/
structure TypeAvant where
  code : Option Chars
  puissance_kva : Option Nat
deriving Repr, DecidableEq

/-- `type_apres` component of `PosteDpTravaux`. -/
structure TypeApres where
  code : Option Chars
  raw : Option Chars
  puissance_kva : Option Nat
deriving Repr, DecidableEq

/-- `PosteDpTravaux` (`operation_secondaire` is either the string
"adaptation" or null, modelled as `Bool`-like option of `OpKind.adaptation`). -/
structure PosteDpTravaux where
  operation_principale : Option OpKind
  operation_secondaire : Option OpKind
  type_avant : TypeAvant
  type_apres : TypeApres
deriving Repr, DecidableEq

/-- PDL sale mode strings. -/
inductive PdlMode where
  | vente_surplus
  | vente_totale
deriving Repr, DecidableEq

/-- `PdlRecord`; in JS the `prm` / `p_conso_kva` keys exist only in
`vente_surplus` mode — here they are `none` in `vente_totale` mode. -/
structure PdlRecord where
  mode : PdlMode
  num_affaire : Chars
  nom_dossier : Option Chars
  p_prod_kva : Option Nat
  type_raccordement : Option TypeRacc
  prm : Option Chars
  p_conso_kva : Option Nat
deriving Repr, DecidableEq

/-- Result of `shapeSingleOrMany`: either the singular key (null or one
item) or the plural key (the list, length at least 2 at the call sites). -/
inductive Shaped (α : Type) where
  | single : Option α → Shaped α
  | many : List α → Shaped α
deriving Repr, DecidableEq

/-- `affaire` component of the final record. -/
structure AffaireInfo where
  num : Option Chars
  p_kva : Option Nat
deriving Repr, DecidableEq

/-- `poste_dp` component of the final record. -/
structure PosteDpRecord where
  numero : Option Chars
  insee : Option Chars
  travaux : Option PosteDpTravaux
deriving Repr, DecidableEq

/-- `bt` component of the final record. -/
structure BtComponent where
  reprise : Shaped BtRepriseItem
  raccordement : Option BtRaccordement
deriving Repr, DecidableEq

/-- `ProjectRecord`, the final output shape. -/
structure ProjectRecord where
  affaire : AffaireInfo
  poste_dp : PosteDpRecord
  hta : Shaped HtaItem
  bt : BtComponent
  pdls : List PdlRecord
deriving Repr, DecidableEq

/-! ### Helpers / referentiels -/

/-- `POSTE_TYPES` in source insertion order, as (lower-case pattern,
canonical code) pairs. -/
def POSTE_TYPES : List (Chars × Chars) :=
  [(strL "h61", strL "H61"), (strL "prcs", strL "PRCS"), (strL "rc", strL "RC"),
   (strL "pac", strL "PAC"), (strL "puie", strL "PUIE"), (strL "ch", strL "CH"),
   (strL "cb", strL "CB")]

/-- `POSTE_PUISSANCES` as a list (JS `Set` membership). -/
def POSTE_PUISSANCES : List Nat := [50, 100, 160, 250, 400, 630, 1000]

/-- `shapeSingleOrMany` (the key names live in the `Shaped` constructors). -/
def shapeSingleOrMany {α : Type} (items : List α) : Shaped α :=
  match items with
  | [] => Shaped.single none
  | [x] => Shaped.single (some x)
  | xs => Shaped.many xs

/-- The constant string "RAS" of the `liaison` field. -/
def rasL : Chars := strL "RAS"

/-- `normalizeSection`: trim, collapse whitespace runs to single spaces,
rewrite `mm?` / `mm²` to `mm2`, rewrite word-bounded `AI` (any case) and
exact `Al` to `AL`. -/
def wsRunAt : Option Char → Chars → Option Nat := fun _ s =>
  let k := countLeading isSpaceChar s
  if k = 0 then none else some k

def mmQAt : Option Char → Chars → Option Nat := fun _ s =>
  match s with
  | m1 :: m2 :: cq :: _ =>
    if lowerChar m1 = 'm' ∧ lowerChar m2 = 'm' ∧ (cq = '?' ∨ cq = '²') then some 3 else none
  | _ => none

def aiWordAt : Option Char → Chars → Option Nat := fun prev s =>
  if prevIsWord prev then none else
  match s with
  | ca :: ci :: rest =>
    if lowerChar ca = 'a' ∧ lowerChar ci = 'i' ∧ noWordAfter rest then some 2 else none
  | _ => none

def alWordAt : Option Char → Chars → Option Nat := fun prev s =>
  if prevIsWord prev then none else
  match s with
  | 'A' :: 'l' :: rest => if noWordAfter rest then some 2 else none
  | _ => none

def normalizeSection (raw : Chars) : Chars :=
  if raw.isEmpty then [] else
  let s1 := trimChars raw
  let s2 := replaceAll wsRunAt (strL " ") s1
  let s3 := replaceAll mmQAt (strL "mm2") s2
  let s4 := replaceAll aiWordAt (strL "AL") s3
  replaceAll alWordAt (strL "AL") s4

/-! ### Poste DP number / INSEE, global affaire fallbacks -/

/-- `parsePosteNumero`. -/
def parsePosteNumero (text : Chars) : Option Chars :=
  (firstMatchIn posteNumAt text).map (fun m => m.2.2)

/-- Shape test `^(\d{5})P\d{4}$` of `deriveInseeFromPoste`. -/
def posteShape (l : Chars) : Bool :=
  l.length = 10 ∧ countLeading Char.isDigit l = 5 ∧
  (l.drop 5).head? = some 'P' ∧ countLeading Char.isDigit (l.drop 6) = 4

/-- `deriveInseeFromPoste`. -/
def deriveInseeFromPoste (poste : Chars) : Option Chars :=
  if posteShape poste then some (poste.take 5) else none

/-- `extractAffaireNum` (first RAC code anywhere). -/
def extractAffaireNum (text : Chars) : Option Chars :=
  (firstMatchIn racAt text).map (fun m => m.2.2)

/-- `extractGlobalPKva` (first `P = <n> KVA` anywhere). -/
def extractGlobalPKva (text : Chars) : Option Nat :=
  (firstMatchIn pKvaAt text).map (fun m => m.2.2)

/-! ### Accessoires -/

/-- Cardinal of one accessory match (`n ? parseInt(n) : 1`). -/
def cardOf (c : Option Nat) : Nat := c.getD 1

/-- `extractAccessoires`. -/
def extractAccessoires (txt : Chars) : AccessorySet :=
  if txt.isEmpty then ⟨0, 0, false⟩ else
  { ras := (firstMatchIn rasAt txt).isSome
    jonctions := (allMatches jonctionAt txt).foldl (fun mx m => Nat.max mx (cardOf m.2.2)) 0
    remontees_aero_souterraines :=
      (allMatches remonteeAt txt).foldl (fun mx m => Nat.max mx (cardOf m.2.2)) 0 }

/-- `localWindow` (default 500 before / 600 after, clipped to the block). -/
def localWindow (bloc : Chars) (span : Nat × Nat) : Chars :=
  if bloc.isEmpty then [] else
  sliceChars bloc (span.1 - 500) (Nat.min bloc.length (span.2 + 600))

/-! ### Cable pairs -/

/-- Value of the last length match before the section token (the JS code
collects all `LENGTH_RE` matches of the backward window and keeps the
last). -/
def lastLenVal (ctx : Chars) : Option Nat :=
  ((allMatches lengthAt ctx).getLast?).map (fun m => m.2.2)

/-- `/\+1x/i.test(sec)` (the `_has_plus_1x` flag). -/
def plus1xTest (sec : Chars) : Bool := containsLitCI (strL "+1x") sec

/-- `findPairsWithSpans`. -/
def findPairsWithSpans (bloc : Chars) : List CablePair :=
  if bloc.isEmpty then [] else
  (allMatches sectionAt bloc).filterMap (fun m =>
    let sec := normalizeSection m.2.2
    let ctx := sliceChars bloc (m.1 - 320) m.1
    if cableTest ctx then
      match lastLenVal ctx with
      | none => none
      | some v => some ⟨v, sec, rasL, plus1xTest sec, (m.1, m.1 + m.2.1)⟩
    else none)

/-! ### Anchor blocks and the HTA extractor -/

/-- `extractBlocks(text, startRe, endRe)`: for each start-match position,
the block runs to the end of the first end match found in the suffix
starting at that position; starts without any end match yield no block. -/
def extractBlocks {α β : Type} (text : Chars) (startP : Pat α) (endP : Pat β) : List Chars :=
  if text.isEmpty then [] else
  ((allMatches startP text).map (fun m => m.1)).filterMap (fun s =>
    let after := text.drop s
    match firstMatchIn endP after with
    | none => none
    | some (i, n, _) => some (after.take (i + n)))

/-- One HTA item from an accepted pair (shared by the primary and the
fallback pass). -/
def mkHtaItem (bloc : Chars) (p : CablePair) : HtaItem :=
  ⟨p.longueur_m, p.sect, rasL, extractAccessoires (localWindow bloc p.span)⟩

/-- Primary HTA pass: anchor blocks, pairs, drop `+1x`-flagged pairs. -/
def htaItemsPrimary (text : Chars) : List HtaItem :=
  (extractBlocks text htaStartAt htaEndAt).flatMap (fun bloc =>
    (findPairsWithSpans bloc).filterMap (fun p =>
      if p.hasPlus1x then none else some (mkHtaItem bloc p)))

/-- One step of the HTA fallback pass over a bare `HTA` occurrence:
append pairs of the ±700/1100 window whose (length, section) is new. -/
def htaFallbackStep (text : Chars) (items : List HtaItem) (idx : Nat) : List HtaItem :=
  let zone := sliceChars text (idx - 700) (Nat.min text.length (idx + 1100))
  (findPairsWithSpans zone).foldl (fun acc p =>
    if p.hasPlus1x then acc
    else
      let cand := mkHtaItem zone p
      if acc.any (fun x => x.longueur_m = cand.longueur_m ∧ x.sect = cand.sect) then acc
      else acc ++ [cand]) items

/-- `extractExtensionsHta`. -/
def extractExtensionsHta (text : Chars) : List HtaItem :=
  if text.isEmpty then [] else
  let items := htaItemsPrimary text
  if items.length ≤ 1 then
    ((allMatches htaWordAt text).map (fun m => m.1)).foldl (htaFallbackStep text) items
  else items

/-! ### BT reprise -/

/-- The block of one BT-reprise start match: up to the start of the first
end-anchor match of the suffix (exclusive), or a fixed 1600-character
fallback window. -/
def btRepriseBlocs (text : Chars) : List Chars :=
  (allMatches btRepriseStartAt text).map (fun m =>
    let after := text.drop m.1
    match firstMatchIn btEndAt after with
    | some (i, _, _) => after.take i
    | none => after.take 1600)

/-- `extractReprisesBt`. -/
def extractReprisesBt (text : Chars) : List BtRepriseItem :=
  if text.isEmpty then [] else
  (btRepriseBlocs text).flatMap (fun bloc =>
    let protection := (firstMatchIn fusiblesAt bloc).map (fun m => m.2.2)
    (findPairsWithSpans bloc).map (fun p =>
      ⟨p.longueur_m, p.sect, protection, rasL,
       extractAccessoires (localWindow bloc p.span)⟩))

/-! ### BT raccordement -/

/-- `detectTypeRaccordement`. -/
def detectTypeRaccordement (bloc : Chars) : Option TypeRacc :=
  let b := bloc.map lowerChar
  if containsSub (strL "départ direct") b ∨ containsSub (strL "depart direct") b then
    some TypeRacc.depart_direct
  else if containsSub (strL "dérivation") b ∨ containsSub (strL "derivation") b then
    some TypeRacc.derivation
  else none

/-- `extractSectionOnly` (first section match, normalized). -/
def extractSectionOnly (bloc : Chars) : Option Chars :=
  (firstMatchIn sectionAt bloc).map (fun m => normalizeSection m.2.2)

/-- `extractLengthOnly` (first length match). -/
def extractLengthOnly (bloc : Chars) : Option Nat :=
  (firstMatchIn lengthAt bloc).map (fun m => m.2.2)

/-- The block of `extractRaccordementBt`: from the first `Raccordement en`
to the end of the first `A)` marker, else to the start of the first
fallback end anchor, else a 1200-character window. -/
def raccordBloc (text : Chars) : Chars :=
  match firstMatchIn raccEnAt text with
  | none => []
  | some (i, _, _) =>
    let after := text.drop i
    match firstMatchIn raccordEndAt after with
    | some (j, n, _) => after.take (j + n)
    | none =>
      match firstMatchIn raccordFallbackEndAt after with
      | some (j, _, _) => after.take j
      | none => after.take 1200

/-- `extractRaccordementBt`. -/
def extractRaccordementBt (text : Chars) : Option BtRaccordement :=
  if text.isEmpty then none else
  match firstMatchIn raccEnAt text with
  | none => none
  | some _ =>
    let bloc := raccordBloc text
    let typ := detectTypeRaccordement bloc
    let sec := extractSectionOnly bloc
    let longueur := extractLengthOnly bloc
    let acc := extractAccessoires bloc
    if typ = none ∧ sec = none ∧ longueur = none then none
    else some ⟨typ, sec, longueur, acc⟩

/-! ### Poste DP resolver -/

/-- `normTypePoste`: upper-case the raw text, try the cabine phrases, then
the type codes in `POSTE_TYPES` order. -/
def normTypePoste (raw : Chars) : Option Chars :=
  if raw.isEmpty then none else
  let s := raw.map upperChar
  if (firstMatchIn cabineHauteAt s).isSome then some (strL "CH")
  else if (firstMatchIn cabineBasseAt s).isSome then some (strL "CB")
  else POSTE_TYPES.findSome? (fun c =>
    if (firstMatchIn (codeAt c.1) s).isSome then some c.2 else none)

/-- `extractFirstPosteBlock`: from the first operation-keyword match to the
end of the first following `prise 1`, else a 2200-character window. -/
def extractFirstPosteBlock (text : Chars) : Option Chars :=
  match firstMatchIn posteEvtStartAt text with
  | none => none
  | some (i, _, _) =>
    let after := text.drop i
    match firstMatchIn posteEvtEndAt after with
    | some (j, n, _) => some (after.take (j + n))
    | none => some (after.take 2200)

/-- `firstPalierInWindow`. -/
def firstPalierInWindow (txt : Chars) : Option Nat :=
  match firstMatchIn palierAt txt with
  | none => none
  | some (_, _, v) => if v ∈ POSTE_PUISSANCES then some v else none

/-- One type-code occurrence: (position, canonical code). -/
structure TypeOcc where
  pos : Nat
  code : Chars
deriving Repr, DecidableEq

/-- Stable insertion into a position-sorted list (elements with equal
positions keep their push order, as JS stable `sort` does). -/
def insOcc (x : TypeOcc) : List TypeOcc → List TypeOcc
  | [] => [x]
  | y :: t => if y.pos ≤ x.pos then y :: insOcc x t else x :: y :: t

/-- `scanTypeOccurrences`: all cabine-phrase and code matches in push order
(`CABINE HAUTE`, `CABINE BASSE`, then each code of `POSTE_TYPES`), then a
stable sort by position. -/
def scanTypeOccurrences (bloc : Chars) : List TypeOcc :=
  if bloc.isEmpty then [] else
  let pushed :=
    ((allMatches cabineHauteAt bloc).map (fun m => TypeOcc.mk m.1 (strL "CH"))) ++
    ((allMatches cabineBasseAt bloc).map (fun m => TypeOcc.mk m.1 (strL "CB"))) ++
    (POSTE_TYPES.flatMap (fun c =>
      (allMatches (codeAt c.1) bloc).map (fun m => TypeOcc.mk m.1 c.2)))
  pushed.foldl (fun acc x => insOcc x acc) []

/-- A (position, code, power) pair of `buildTypePowerPairs`. -/
structure TypePair where
  pos : Nat
  code : Chars
  puissance_kva : Option Nat
deriving Repr, DecidableEq

/-- The near-duplicate collapse of `buildTypePowerPairs`: walk the pairs,
comparing each with the last kept one; same code within 40 characters is
merged (keeping a non-null power if only the new pair has one). -/
def dedupStep (prev : TypePair) : List TypePair → List TypePair
  | [] => [prev]
  | x :: t =>
    if x.code = prev.code ∧ ((x.pos : Int) - (prev.pos : Int)).natAbs < 40 then
      if prev.puissance_kva = none ∧ x.puissance_kva ≠ none then dedupStep x t
      else dedupStep prev t
    else prev :: dedupStep x t

def dedupPairs : List TypePair → List TypePair
  | [] => []
  | x :: t => dedupStep x t

/-- `buildTypePowerPairs`. -/
def buildTypePowerPairs (bloc : Chars) : List TypePair :=
  let pairs := (scanTypeOccurrences bloc).map (fun o =>
    let w := sliceChars bloc (o.pos - 60) (Nat.min bloc.length (o.pos + 180))
    TypePair.mk o.pos o.code (firstPalierInWindow w))
  dedupPairs pairs

/-- `fallbackTypeAvantPower`. -/
def fallbackTypeAvantPower (bloc : Chars) : Option Chars × Option Nat :=
  match firstMatchIn deTypeAt bloc with
  | none => (none, none)
  | some (i, n, _) =>
    let w := sliceChars bloc (i + n) (i + n + 260)
    (normTypePoste w, firstPalierInWindow w)

/-- `fallbackTypeApresPower`. -/
def fallbackTypeApresPower (bloc : Chars) : Option Nat :=
  match firstMatchIn puissanceDeAt bloc with
  | some (i, n, _) => firstPalierInWindow (sliceChars bloc (i + n) (i + n + 90))
  | none =>
    let vals := ((allMatches palierAt bloc).map (fun m => m.2.2)).filter
      (fun v => v ∈ POSTE_PUISSANCES)
    match vals with
    | [] => none
    | v :: vs => some (vs.foldl Nat.max v)

/-- The operation-string dispatch of `extractPosteDpTravaux` (`opRaw` is
the lower-cased captured keyword; empty when the truncated block no longer
matches the start pattern). -/
def opOf (opRaw : Chars) : Option OpKind :=
  if containsSub (strL "déplacement") opRaw ∨ containsSub (strL "deplacement") opRaw then
    some OpKind.deplacement
  else if containsSub (strL "création") opRaw ∨ containsSub (strL "creation") opRaw then
    some OpKind.creation
  else if containsSub (strL "adaptation") opRaw then some OpKind.adaptation
  else if containsSub (strL "mutation") opRaw then some OpKind.mutation
  else none

/-- `/\bet\s+adaptation\b/i` of the secondary-operation test. -/
def etAdaptationAt : Pat Unit := fun prev s =>
  if prevIsWord prev then none else
  match litCI (strL "et") s with
  | none => none
  | some _ =>
    let r1 := s.drop 2
    let w := countLeading isSpaceChar r1
    if w = 0 then none else
    match litCI (strL "adaptation") (r1.drop w) with
    | some _ => if noWordAfter (r1.drop (w + 10)) then some (2 + w + 10, ()) else none
    | none => none

/-- `extractPosteDpTravaux`. -/
def extractPosteDpTravaux (text : Chars) : Option PosteDpTravaux :=
  match extractFirstPosteBlock text with
  | none => none
  | some bloc =>
    let opRaw := match firstMatchIn posteEvtStartAt bloc with
      | some (_, _, kw) => kw.map lowerChar
      | none => []
    let op := opOf opRaw
    let op2 := if op = some OpKind.deplacement ∧ (firstMatchIn etAdaptationAt bloc).isSome
      then some OpKind.adaptation else none
    let typeApresRaw := (firstMatchIn typeApresAt bloc).map
      (fun m => (trimChars m.2.2).map upperChar)
    let typeApresCodeFromRaw := match typeApresRaw with
      | some r => normTypePoste r
      | none => none
    let pairs := buildTypePowerPairs bloc
    let resolved : Option Chars × Option Nat × Option Chars × Option Nat :=
      match pairs with
      | p0 :: p1 :: _ => (some p0.code, p0.puissance_kva, some p1.code, p1.puissance_kva)
      | [p0] => (some p0.code, p0.puissance_kva, typeApresCodeFromRaw, fallbackTypeApresPower bloc)
      | [] =>
        let av := fallbackTypeAvantPower bloc
        (av.1, av.2, typeApresCodeFromRaw, fallbackTypeApresPower bloc)
    let typeAvantCode := resolved.1
    let typeAvantKva := resolved.2.1
    let typeApresKva := resolved.2.2.2
    let typeApresCode := match resolved.2.2.1 with
      | some c => some c
      | none => typeApresCodeFromRaw
    if op = none ∧ typeAvantCode = none ∧ typeApresRaw = none ∧
       typeAvantKva = none ∧ typeApresKva = none then none
    else some
      { operation_principale := op
        operation_secondaire := op2
        type_avant := ⟨typeAvantCode, typeAvantKva⟩
        type_apres := ⟨typeApresCode, typeApresRaw, typeApresKva⟩ }

/-! ### PDL segmentation -/

/-- `splitLines`: split on `\r?\n` and trim each line (splitting on the
newline and trimming absorbs the optional carriage return). -/
def splitNl : Chars → List Chars
  | [] => [[]]
  | c :: t =>
    if c = Char.ofNat 10 then [] :: splitNl t
    else match splitNl t with
      | h :: r => (c :: h) :: r
      | [] => [[c]]

def splitLines (txt : Chars) : List Chars :=
  (splitNl txt).map trimChars

/-- `isNoiseLine`. -/
def isNoiseLine (ln : Chars) : Bool :=
  if ln.isEmpty then true else
  let u := trimChars (ln.map upperChar)
  if u.isEmpty then true
  else (strL "P=").isPrefixOf u ∨ (strL "P =").isPrefixOf u ∨
    containsSub (strL "LEGENDE") u ∨ containsSub (strL "TAN") u ∨
    containsSub (strL "PLATINE") u

/-- `RAC_ONE_RE.test(ln)`. -/
def racTest (ln : Chars) : Bool := (firstMatchIn racAt ln).isSome

/-- `extractNomDossierFromBlock`: first non-noise, non-RAC line among the
seven lines following the line holding the RAC code. -/
def extractNomDossierFromBlock (block : Chars) (rac : Chars) : Option Chars :=
  let lines := splitLines block
  match lines.findIdx? (fun ln => containsSub rac ln) with
  | none => none
  | some idx =>
    ((lines.drop (idx + 1)).take 7).find? (fun ln => ¬ isNoiseLine ln ∧ ¬ racTest ln)

/-- `extractPProdFromBlock`. -/
def extractPProdFromBlock (block : Chars) : Option Nat :=
  (firstMatchIn pKvaAt block).map (fun m => m.2.2)

/-- `extractPConsoFromBlock`. -/
def extractPConsoFromBlock (block : Chars) : Option Nat :=
  (firstMatchIn pconsoAt block).map (fun m => m.2.2)

/-- `extractPrmFromBlock`. -/
def extractPrmFromBlock (block : Chars) : Option Chars :=
  (firstMatchIn prm14At block).map (fun m => m.2.2)

/-- `extractTypeRaccordementFromBlock` (same detection body as
`detectTypeRaccordement`). -/
def extractTypeRaccordementFromBlock (block : Chars) : Option TypeRacc :=
  let b := block.map lowerChar
  if containsSub (strL "départ direct") b ∨ containsSub (strL "depart direct") b then
    some TypeRacc.depart_direct
  else if containsSub (strL "dérivation") b ∨ containsSub (strL "derivation") b then
    some TypeRacc.derivation
  else none

/-- One PDL record from its block. -/
def mkPdl (block : Chars) (rac : Chars) : PdlRecord :=
  let mode := if (firstMatchIn surplusAt block).isSome then PdlMode.vente_surplus
    else PdlMode.vente_totale
  { mode := mode
    num_affaire := rac
    nom_dossier := extractNomDossierFromBlock block rac
    p_prod_kva := extractPProdFromBlock block
    type_raccordement := extractTypeRaccordementFromBlock block
    prm := if mode = PdlMode.vente_surplus then extractPrmFromBlock block else none
    p_conso_kva := if mode = PdlMode.vente_surplus then extractPConsoFromBlock block else none }

/-- The RAC matches of the text as (position, matched code). -/
def racMatches (text : Chars) : List (Nat × Chars) :=
  (allMatches racAt text).map (fun m => (m.1, m.2.2))

/-- The RAC match positions. -/
def racPositions (text : Chars) : List Nat := (racMatches text).map (fun m => m.1)

/-- Per-match PDL construction: block `i` runs from the start of RAC match
`i` to the start of match `i + 1`, or to the text end for the last. -/
def pdlsAux (text : Chars) : List (Nat × Chars) → List PdlRecord
  | [] => []
  | (p, rac) :: rest =>
    let e := match rest with
      | [] => text.length
      | (q, _) :: _ => q
    mkPdl (sliceChars text p e) rac :: pdlsAux text rest

/-- `extractPdls`. -/
def extractPdls (text : Chars) : List PdlRecord :=
  if text.isEmpty then [] else
  pdlsAux text (racMatches text)

/-- The block spans used by the segmentation, for stating the claims. -/
def spansAux (L : Nat) : List Nat → List (Nat × Nat)
  | [] => []
  | p :: rest =>
    let e := match rest with
      | [] => L
      | q :: _ => q
    (p, e) :: spansAux L rest

def pdlSpans (text : Chars) : List (Nat × Nat) :=
  spansAux text.length (racPositions text)

/-! ### Assembler -/

/-- `parseOcrTextToProject` (`parse` of the spec): the top-level assembly.
The JS null-guard `(textRaw ?? "").toString()` is modelled by the input
already being a string. -/
def parseOcrTextToProject (text : Chars) : ProjectRecord :=
  let poste := parsePosteNumero text
  let insee := match poste with
    | some p => deriveInseeFromPoste p
    | none => none
  let htaItems := extractExtensionsHta text
  let btReprises := extractReprisesBt text
  let btRaccord := extractRaccordementBt text
  let posteTravaux := extractPosteDpTravaux text
  let pdls := extractPdls text
  let affaireNum := match pdls with
    | pdl :: _ => some pdl.num_affaire
    | [] => extractAffaireNum text
  let affaireP := match pdls with
    | pdl :: _ => pdl.p_prod_kva
    | [] => extractGlobalPKva text
  { affaire := ⟨affaireNum, affaireP⟩
    poste_dp := ⟨poste, insee, posteTravaux⟩
    hta := shapeSingleOrMany htaItems
    bt := ⟨shapeSingleOrMany btReprises, btRaccord⟩
    pdls := pdls }

/-! ### Helper notions used to state and prove the claims -/

/-- The character just before scan position `j` (starting from previous
character `prev` at position 0 of `s`). -/
def prevOf (prev : Option Char) (s : Chars) : Nat → Option Char
  | 0 => prev
  | j + 1 => (s.drop j).head?

/-- Per-match cardinal values of the jonction vocabulary in a window. -/
def jonctionVals (txt : Chars) : List Nat :=
  (allMatches jonctionAt txt).map (fun m => cardOf m.2.2)

/-- Per-match cardinal values of the riser vocabulary in a window. -/
def remonteeVals (txt : Chars) : List Nat :=
  (allMatches remonteeAt txt).map (fun m => cardOf m.2.2)

/-- A word-bounded, case-insensitive occurrence of the token `RAS` at
position `j` of `txt` (the language of `/\bRAS\b/i`). -/
def RasTokenAt (txt : Chars) (j : Nat) : Prop :=
  prevIsWord (prevOf none txt j) = false ∧
  ((txt.drop j).take 3).map lowerChar = strL "ras" ∧
  noWordAfter (txt.drop (j + 3)) = true

/-- A head gate for a matcher: whenever the gate is false on the previous
character and the head character, the matcher fails, whatever the tail. -/
def HeadGate (pat : Pat α) (g : Option Char → Char → Bool) : Prop :=
  ∀ pv c t, g pv c = false → pat pv (c :: t) = none

/-- The gate fails at every position of `l` (threading the previous
character). -/
def gateClear (g : Option Char → Char → Bool) : Option Char → Chars → Bool
  | _, [] => true
  | pv, c :: t => !g pv c && gateClear g (some c) t

/-- The previous character after scanning past `l`. -/
def prevPast (prev : Option Char) (l : Chars) : Option Char :=
  match l.getLast? with
  | some c => some c
  | none => prev

/-- Concrete head gates for the anchor patterns: each pattern can only
start where its gate accepts the first character. -/
def letterGate (x : Char) : Option Char → Char → Bool :=
  fun pv c => !prevIsWord pv && (lowerChar c = x)

def letterGateNP (x : Char) : Option Char → Char → Bool :=
  fun _ c => (lowerChar c = x)

def digitGate : Option Char → Char → Bool :=
  fun pv c => !prevIsWord pv && c.isDigit

def multiGate (xs : Chars) : Option Char → Char → Bool :=
  fun pv c => !prevIsWord pv && xs.contains (lowerChar c)

/-! ### Concrete example inputs -/

def exC1ctrl : Chars := [Char.ofNat 1, Char.ofNat 10, Char.ofNat 7, Char.ofNat 27]

def exC2 : Chars := strL "x RAC-ABC-12-345678 yy RAC-DEF-34-567890 z"

def exC3 : Chars := strL "Reprise du reseau BT existant cable 45 m 3x95 AL LEGENDE tail"

def exC3bloc : Chars := strL "Reprise du reseau BT existant cable 45 m 3x95 AL "

def exC3w : Chars := strL "Extension du reseau HTA x poste source"

def exC4 : Chars := strL "Extension du reseau HTA cable 120 m 3x150 + 1x95 AL du poste source"

def exC4sect : Chars := strL "3x150 + 1x95 AL"

def exC5 : Chars := strL "3 jonctions puis 5 jonctions"

def exC6 : Chars := strL "le cable de 120 m en 3x150 AL"

def exC6neg : Chars := strL "longueur 120 m en 3x150 AL"

def exC7 : Chars := strL "Mutation du poste DP H61 160"

def exC8 : Chars := strL "Raccordement en derivation cable 50 m 3x95 AL"

def exC9 : Chars := strL "ras"

/-- The C10 counterexample: an operation keyword, enough whitespace that
the 2200-character fallback block cuts the start match short, then the
rest of the anchor. -/
def exC10 : Chars := strL "Mutation" ++ List.replicate 2182 ' ' ++ strL "du poste DP"

/-- The block `extractFirstPosteBlock` produces on `exC10`. -/
def exC10bloc : Chars := strL "Mutation" ++ List.replicate 2182 ' ' ++ strL "du poste D"

def exC10w : Chars := strL "Creation du poste DP"

/-! ### General lemmas about the scanning drivers -/

theorem prevOf_cons (prev : Option Char) (c : Char) (rest : Chars) (j : Nat) :
    prevOf prev (c :: rest) (j + 1) = prevOf (some c) rest j := by
  cases j with
  | zero => simp [prevOf]
  | succ k => simp [prevOf, List.drop_succ_cons]

theorem findFromAux_some_sound (pat : Pat α) :
    ∀ (s : Chars) (prev : Option Char) (idx i n : Nat) (a : α),
      findFromAux pat prev s idx = some (i, n, a) →
      ∃ j, i = idx + j ∧ pat (prevOf prev s j) (s.drop j) = some (n, a) := by
  intro s
  induction s with
  | nil =>
    intro prev idx i n a h
    simp only [findFromAux, Option.map_eq_some'] at h
    obtain ⟨p, hp, he⟩ := h
    obtain ⟨pn, pa⟩ := p
    have h1 : idx = i := congrArg Prod.fst he
    have h2 : pn = n := congrArg (fun q => q.2.1) he
    have h3 : pa = a := congrArg (fun q => q.2.2) he
    subst h2; subst h3
    exact ⟨0, by omega, by simpa [prevOf] using hp⟩
  | cons c rest ih =>
    intro prev idx i n a h
    simp only [findFromAux] at h
    cases hp : pat prev (c :: rest) with
    | some p =>
      rw [hp] at h
      obtain ⟨rfl, rfl, rfl⟩ : i = idx ∧ n = p.1 ∧ a = p.2 := by
        cases p; cases h; exact ⟨rfl, rfl, rfl⟩
      exact ⟨0, by omega, by simpa [prevOf] using hp⟩
    | none =>
      rw [hp] at h
      obtain ⟨j, hj, hpat⟩ := ih (some c) (idx + 1) i n a h
      exact ⟨j + 1, by omega, by rwa [prevOf_cons, List.drop_succ_cons]⟩

theorem findFromAux_none_sound (pat : Pat α) (hnil : ∀ pv, pat pv [] = none) :
    ∀ (s : Chars) (prev : Option Char) (idx : Nat),
      findFromAux pat prev s idx = none →
      ∀ j, pat (prevOf prev s j) (s.drop j) = none := by
  intro s
  induction s with
  | nil =>
    intro prev idx h j
    cases j with
    | zero =>
      simp only [findFromAux, Option.map_eq_none'] at h
      simpa [prevOf] using h
    | succ k => simpa [prevOf] using hnil _
  | cons c rest ih =>
    intro prev idx h j
    simp only [findFromAux] at h
    cases hp : pat prev (c :: rest) with
    | some p => rw [hp] at h; cases h
    | none =>
      rw [hp] at h
      cases j with
      | zero => simpa [prevOf] using hp
      | succ k =>
        rw [prevOf_cons, List.drop_succ_cons]
        exact ih (some c) (idx + 1) h k

theorem findFromAux_capture (pat : Pat α) (s : Chars) (prev : Option Char)
    (idx i n : Nat) (a : α) (h : findFromAux pat prev s idx = some (i, n, a)) :
    ∃ pv t, pat pv t = some (n, a) := by
  obtain ⟨j, _, hp⟩ := findFromAux_some_sound pat s prev idx i n a h
  exact ⟨_, _, hp⟩

theorem findFromAux_lb (pat : Pat α) (s : Chars) (prev : Option Char)
    (idx i n : Nat) (a : α) (h : findFromAux pat prev s idx = some (i, n, a)) :
    idx ≤ i := by
  obtain ⟨j, hj, _⟩ := findFromAux_some_sound pat s prev idx i n a h
  omega

theorem allMatchesAux_capture (pat : Pat α) :
    ∀ (fuel : Nat) (prev : Option Char) (s : Chars) (idx : Nat) (e : Nat × Nat × α),
      e ∈ allMatchesAux pat fuel prev s idx → ∃ pv t, pat pv t = some (e.2.1, e.2.2) := by
  intro fuel
  induction fuel with
  | zero => intro prev s idx e h; simp [allMatchesAux] at h
  | succ fuel ih =>
    intro prev s idx e h
    simp only [allMatchesAux] at h
    cases hf : findFromAux pat prev s idx with
    | none => rw [hf] at h; simp at h
    | some r =>
      obtain ⟨i, n, a⟩ := r
      rw [hf] at h
      simp only [List.mem_cons] at h
      cases h with
      | inl he => subst he; exact findFromAux_capture pat s prev idx i n a hf
      | inr hm => exact ih _ _ _ _ hm

theorem allMatchesAux_lb (pat : Pat α) :
    ∀ (fuel : Nat) (prev : Option Char) (s : Chars) (idx : Nat) (e : Nat × Nat × α),
      e ∈ allMatchesAux pat fuel prev s idx → idx ≤ e.1 := by
  intro fuel
  induction fuel with
  | zero => intro prev s idx e h; simp [allMatchesAux] at h
  | succ fuel ih =>
    intro prev s idx e h
    simp only [allMatchesAux] at h
    cases hf : findFromAux pat prev s idx with
    | none => rw [hf] at h; simp at h
    | some r =>
      obtain ⟨i, n, a⟩ := r
      rw [hf] at h
      simp only [List.mem_cons] at h
      cases h with
      | inl he => subst he; exact findFromAux_lb pat s prev idx i n a hf
      | inr hm =>
        have := ih _ _ _ e hm
        omega

theorem allMatchesAux_chain (pat : Pat α) :
    ∀ (fuel : Nat) (prev : Option Char) (s : Chars) (idx : Nat),
      List.Chain' (fun a b => a.1 < b.1) (allMatchesAux pat fuel prev s idx) := by
  intro fuel
  induction fuel with
  | zero => intro prev s idx; simp [allMatchesAux]
  | succ fuel ih =>
    intro prev s idx
    simp only [allMatchesAux]
    cases hf : findFromAux pat prev s idx with
    | none => simp
    | some r =>
      obtain ⟨i, n, a⟩ := r
      refine List.Chain'.cons' (ih _ _ _) ?_
      intro e he
      have hmem := List.mem_of_mem_head? he
      have hlb := allMatchesAux_lb pat fuel _ _ _ e hmem
      have hge : idx ≤ i := findFromAux_lb pat s prev idx i n a hf
      have : i + Nat.max n 1 ≤ e.1 := by
        have h1 : 1 ≤ Nat.max n 1 := Nat.le_max_right n 1
        omega
      have h1 : 1 ≤ Nat.max n 1 := Nat.le_max_right n 1
      omega

theorem allMatches_chain (pat : Pat α) (s : Chars) :
    List.Chain' (fun a b => a.1 < b.1) (allMatches pat s) :=
  allMatchesAux_chain pat _ none s 0

theorem allMatches_capture (pat : Pat α) (s : Chars) (e : Nat × Nat × α)
    (h : e ∈ allMatches pat s) : ∃ pv t, pat pv t = some (e.2.1, e.2.2) :=
  allMatchesAux_capture pat _ none s 0 e h

theorem chain_lt_head_lt {β : Type} (f : β → Nat) :
    ∀ (l : List β) (x : β), List.Chain' (fun a b => f a < f b) (x :: l) →
      ∀ y ∈ l, f x < f y := by
  intro l
  induction l with
  | nil => intro x _ y hy; simp at hy
  | cons z t ih =>
    intro x hc y hy
    have hxz : f x < f z := (List.chain'_cons.mp hc).1
    cases List.mem_cons.mp hy with
    | inl he => subst he; exact hxz
    | inr hm => exact Nat.lt_trans hxz (ih z (List.chain'_cons.mp hc).2 y hm)

theorem chain_lt_mem_eq {β : Type} (f : β → Nat) :
    ∀ (l : List β), List.Chain' (fun a b => f a < f b) l →
      ∀ x ∈ l, ∀ y ∈ l, f x = f y → x = y := by
  intro l
  induction l with
  | nil => intro _ x hx; simp at hx
  | cons z t ih =>
    intro hc x hx y hy hf
    have htail := (List.chain'_cons'.mp hc).2
    cases List.mem_cons.mp hx with
    | inl hex =>
      cases List.mem_cons.mp hy with
      | inl hey => rw [hex, hey]
      | inr hmy =>
        subst hex
        have := chain_lt_head_lt f t x hc y hmy
        omega
    | inr hmx =>
      cases List.mem_cons.mp hy with
      | inl hey =>
        subst hey
        have := chain_lt_head_lt f t y hc x hmx
        omega
      | inr hmy => exact ih htail x hmx y hmy hf

/-! ### Lemmas about fold-max (accessory counting) -/

theorem le_foldl_max_init : ∀ (l : List Nat) (a : Nat), a ≤ l.foldl Nat.max a := by
  intro l
  induction l with
  | nil => intro a; simp
  | cons x t ih =>
    intro a
    calc a ≤ Nat.max a x := Nat.le_max_left a x
    _ ≤ t.foldl Nat.max (Nat.max a x) := ih _

theorem mem_le_foldl_max : ∀ (l : List Nat) (a v : Nat), v ∈ l → v ≤ l.foldl Nat.max a := by
  intro l
  induction l with
  | nil => intro a v hv; simp at hv
  | cons x t ih =>
    intro a v hv
    cases List.mem_cons.mp hv with
    | inl he =>
      subst he
      calc v ≤ Nat.max a v := Nat.le_max_right a v
      _ ≤ t.foldl Nat.max (Nat.max a v) := le_foldl_max_init t _
    | inr hm => exact ih _ v hm

theorem foldl_max_mem_or : ∀ (l : List Nat) (a : Nat),
    l.foldl Nat.max a = a ∨ l.foldl Nat.max a ∈ l := by
  intro l
  induction l with
  | nil => intro a; simp
  | cons x t ih =>
    intro a
    rcases ih (Nat.max a x) with h | h
    · rw [List.foldl_cons, h]
      rcases Nat.le_total a x with hm | hm
      · right
        have hx : Nat.max a x = x := by simp [Nat.max_def, hm]
        rw [hx]
        exact List.mem_cons_self x t
      · left
        have hx : Nat.max a x = a := by
          rcases Nat.lt_or_ge x a with hlt | hge
          · simp [Nat.max_def]
            omega
          · have : a = x := Nat.le_antisymm hge hm
            simp [Nat.max_def, this]
        exact hx
    · right
      exact List.mem_cons_of_mem x h

theorem foldl_max_map {β : Type} (f : β → Nat) :
    ∀ (l : List β) (a : Nat),
      l.foldl (fun mx m => Nat.max mx (f m)) a = (l.map f).foldl Nat.max a := by
  intro l
  induction l with
  | nil => intro a; simp
  | cons x t ih => intro a; simp [List.foldl_cons, ih]

/-! ### Claim C1 -/

/-- Claim C1: for every input string (including the empty string and
strings of control characters) the top-level `parseOcrTextToProject`
returns a fully-shaped `ProjectRecord` — each of the `affaire`, `poste_dp`,
`hta`, `bt` and `pdls` fields is always present and equals the respective
sub-extraction, with nulls and empty collections where nothing was
extracted.  The embedding is a total function, so no exception is
possible. -/
theorem c1_parse_fully_shaped :
    (∀ t : Chars,
      (parseOcrTextToProject t).pdls = extractPdls t ∧
      (parseOcrTextToProject t).hta = shapeSingleOrMany (extractExtensionsHta t) ∧
      (parseOcrTextToProject t).bt.reprise = shapeSingleOrMany (extractReprisesBt t) ∧
      (parseOcrTextToProject t).bt.raccordement = extractRaccordementBt t ∧
      (parseOcrTextToProject t).poste_dp.travaux = extractPosteDpTravaux t ∧
      (parseOcrTextToProject t).poste_dp.numero = parsePosteNumero t) ∧
    parseOcrTextToProject [] =
      ⟨⟨none, none⟩, ⟨none, none, none⟩, Shaped.single none, ⟨Shaped.single none, none⟩, []⟩ ∧
    parseOcrTextToProject exC1ctrl =
      ⟨⟨none, none⟩, ⟨none, none, none⟩, Shaped.single none, ⟨Shaped.single none, none⟩, []⟩ := by
  refine ⟨fun t => ⟨rfl, rfl, rfl, rfl, rfl, rfl⟩, by decide, by decide⟩

/-! ### Claim C5 -/

/-- Claim C5: for each accessory vocabulary the reported count is the
maximum single cardinal over all matches in the window (a match without a
cardinal counting as 1), never their sum: every per-match cardinal is at
most the reported count, the reported count is 0 or one of the per-match
cardinals, and the window holding "3 jonctions" and separately
"5 jonctions" yields 5, not 8. -/
theorem c5_accessory_max :
    (∀ txt : Chars,
      (∀ v ∈ jonctionVals txt, v ≤ (extractAccessoires txt).jonctions) ∧
      ((extractAccessoires txt).jonctions = 0 ∨
        (extractAccessoires txt).jonctions ∈ jonctionVals txt) ∧
      (∀ v ∈ remonteeVals txt, v ≤ (extractAccessoires txt).remontees_aero_souterraines) ∧
      ((extractAccessoires txt).remontees_aero_souterraines = 0 ∨
        (extractAccessoires txt).remontees_aero_souterraines ∈ remonteeVals txt)) ∧
    jonctionVals exC5 = [3, 5] ∧ (extractAccessoires exC5).jonctions = 5 := by
  constructor
  · intro txt
    cases he : txt.isEmpty with
    | true =>
      have htxt : txt = [] := List.isEmpty_iff.mp he
      subst htxt
      have hj : jonctionVals ([] : Chars) = [] := by decide
      have hr : remonteeVals ([] : Chars) = [] := by decide
      have ha : extractAccessoires ([] : Chars) = ⟨0, 0, false⟩ := by decide
      refine ⟨?_, ?_, ?_, ?_⟩
      · intro v hv; rw [hj] at hv; simp at hv
      · left; rw [ha]
      · intro v hv; rw [hr] at hv; simp at hv
      · left; rw [ha]
    | false =>
      have hne : ¬ txt.isEmpty = true := by simp [he]
      have hjon : (extractAccessoires txt).jonctions = (jonctionVals txt).foldl Nat.max 0 := by
        rw [extractAccessoires, if_neg hne, jonctionVals]
        exact foldl_max_map (fun m : Nat × Nat × Option Nat => cardOf m.2.2) _ 0
      have hrem : (extractAccessoires txt).remontees_aero_souterraines
          = (remonteeVals txt).foldl Nat.max 0 := by
        rw [extractAccessoires, if_neg hne, remonteeVals]
        exact foldl_max_map (fun m : Nat × Nat × Option Nat => cardOf m.2.2) _ 0
      refine ⟨?_, ?_, ?_, ?_⟩
      · intro v hv; rw [hjon]; exact mem_le_foldl_max _ 0 v hv
      · rw [hjon]; exact foldl_max_mem_or (jonctionVals txt) 0
      · intro v hv; rw [hrem]; exact mem_le_foldl_max _ 0 v hv
      · rw [hrem]; exact foldl_max_mem_or (remonteeVals txt) 0
  · exact ⟨by decide, by decide⟩

/-- Witness for C5 at the concrete window. -/
theorem c5_accessory_max_witness :
    5 ∈ jonctionVals exC5 ∧ 5 ≤ (extractAccessoires exC5).jonctions :=
  ⟨by decide, (c5_accessory_max.1 exC5).1 5 (by decide)⟩

/-! ### Claim C9 -/

theorem litCI_isSome_iff :
    ∀ (pat : Chars) (s : Chars),
      (litCI pat s).isSome = true ↔ (s.take pat.length).map lowerChar = pat := by
  intro pat
  induction pat with
  | nil => intro s; simp [litCI]
  | cons p pt ih =>
    intro s
    cases s with
    | nil => simp [litCI]
    | cons c ct =>
      by_cases hc : lowerChar c = p
      · simp [litCI, hc, ih ct]
      · simp [litCI, hc, Ne.symm hc]

theorem rasAt_isSome_iff (pv : Option Char) (s : Chars) :
    (rasAt pv s).isSome = true ↔
      (prevIsWord pv = false ∧ (s.take 3).map lowerChar = strL "ras" ∧
        noWordAfter (s.drop 3) = true) := by
  unfold rasAt
  cases hp : prevIsWord pv with
  | true => simp
  | false =>
    cases hl : litCI (strL "ras") s with
    | none =>
      have hiff := litCI_isSome_iff (strL "ras") s
      rw [hl] at hiff
      simp at hiff
      have hlen : (strL "ras").length = 3 := by decide
      rw [hlen] at hiff
      simp [hl, hiff]
    | some k =>
      have h2 := (litCI_isSome_iff (strL "ras") s).mp (by simp [hl])
      have hlen : (strL "ras").length = 3 := by decide
      rw [hlen] at h2
      cases hw : noWordAfter (s.drop 3) <;> simp [hl, hw, h2]

theorem rasAt_nil_none : ∀ pv, rasAt pv [] = none := by
  intro pv
  unfold rasAt
  cases hp : prevIsWord pv with
  | true => simp
  | false => simp [show litCI (strL "ras") ([] : Chars) = none from by decide]

/-- Counterexample for C9: the lower-case window "ras" sets the flag even
though the literal token "RAS" appears nowhere in it (the source pattern
carries the `i` flag). -/
theorem c9_counterexample :
    (extractAccessoires exC9).ras = true ∧ containsSub (strL "RAS") exC9 = false := by
  exact ⟨by decide, by decide⟩

/-- Claim C9 (amended): the `ras` flag is true iff a word-bounded,
case-insensitive occurrence of the token "RAS" appears somewhere in the
window; with the original claim's exact-case reading the equivalence fails
(see the counterexample). -/
theorem c9_ras_amended :
    ∀ txt : Chars, (extractAccessoires txt).ras = true ↔ ∃ j, RasTokenAt txt j := by
  intro txt
  cases he : txt.isEmpty with
  | true =>
    have htxt : txt = [] := List.isEmpty_iff.mp he
    subst htxt
    constructor
    · intro h
      rw [show extractAccessoires ([] : Chars) = ⟨0, 0, false⟩ from by decide] at h
      cases h
    · intro ⟨j, _, h2, _⟩
      simp at h2
      exact absurd h2 (by decide)
  | false =>
    have hne : ¬ txt.isEmpty = true := by simp [he]
    have hras : (extractAccessoires txt).ras = (firstMatchIn rasAt txt).isSome := by
      rw [extractAccessoires, if_neg hne]
    rw [hras]
    constructor
    · intro h
      obtain ⟨⟨i, n, a⟩, hm⟩ := Option.isSome_iff_exists.mp h
      obtain ⟨j, _, hp⟩ := findFromAux_some_sound rasAt txt none 0 i n a hm
      refine ⟨j, ?_⟩
      have := (rasAt_isSome_iff (prevOf none txt j) (txt.drop j)).mp (by simp [hp])
      refine ⟨this.1, this.2.1, ?_⟩
      have h3 := this.2.2
      rwa [List.drop_drop] at h3
    · intro ⟨j, h1, h2, h3⟩
      cases hfm : firstMatchIn rasAt txt with
      | some r => simp
      | none =>
        exfalso
        have hnone := findFromAux_none_sound rasAt rasAt_nil_none txt none 0 hfm j
        have hsome : (rasAt (prevOf none txt j) (txt.drop j)).isSome = true := by
          rw [rasAt_isSome_iff]
          refine ⟨h1, h2, ?_⟩
          rw [List.drop_drop]
          exact h3
        rw [hnone] at hsome
        cases hsome

/-! ### Claim C2 -/

theorem spansAux_length (L : Nat) : ∀ ps : List Nat, (spansAux L ps).length = ps.length := by
  intro ps
  induction ps with
  | nil => simp [spansAux]
  | cons p rest ih => simp [spansAux, ih]

theorem spansAux_fst (L : Nat) :
    ∀ ps : List Nat, (spansAux L ps).map Prod.fst = ps := by
  intro ps
  induction ps with
  | nil => simp [spansAux]
  | cons p rest ih => simp [spansAux, ih]

theorem spansAux_chain (L : Nat) :
    ∀ ps : List Nat, List.Chain' (fun a b : Nat × Nat => a.2 = b.1) (spansAux L ps) := by
  intro ps
  induction ps with
  | nil => simp [spansAux]
  | cons p rest ih =>
    cases rest with
    | nil => simp [spansAux]
    | cons q t =>
      have hx : spansAux L (p :: q :: t) = (p, q) :: spansAux L (q :: t) := by
        simp [spansAux]
      rw [hx]
      obtain ⟨e, rest2, hy⟩ : ∃ e rest2, spansAux L (q :: t) = (q, e) :: rest2 := by
        cases t <;> simp [spansAux]
      rw [hy]
      refine List.chain'_cons.mpr ⟨rfl, ?_⟩
      rw [← hy]
      exact ih

theorem spansAux_last (L : Nat) :
    ∀ (ps : List Nat) (s e : Nat), (spansAux L ps).getLast? = some (s, e) → e = L := by
  intro ps
  induction ps with
  | nil => intro s e h; simp [spansAux] at h
  | cons p rest ih =>
    cases rest with
    | nil =>
      intro s e h
      simp [spansAux] at h
      exact h.2.symm
    | cons q t =>
      intro s e h
      have hx : spansAux L (p :: q :: t) = (p, q) :: spansAux L (q :: t) := by
        simp [spansAux]
      rw [hx] at h
      obtain ⟨e2, rest2, hy⟩ : ∃ e2 rest2, spansAux L (q :: t) = (q, e2) :: rest2 := by
        cases t <;> simp [spansAux]
      rw [hy, List.getLast?_cons_cons] at h
      rw [← hy] at h
      exact ih s e h

theorem pdlsAux_eq (text : Chars) :
    ∀ l : List (Nat × Chars),
      pdlsAux text l =
        ((spansAux text.length (l.map (fun m => m.1))).zip (l.map (fun m => m.2))).map
          (fun pr => mkPdl (sliceChars text pr.1.1 pr.1.2) pr.2) := by
  intro l
  induction l with
  | nil => simp [pdlsAux, spansAux]
  | cons hd rest ih =>
    obtain ⟨p, rac⟩ := hd
    cases rest with
    | nil => simp [pdlsAux, spansAux]
    | cons hd2 t =>
      obtain ⟨q, rac2⟩ := hd2
      have h1 : pdlsAux text ((p, rac) :: (q, rac2) :: t) =
          mkPdl (sliceChars text p q) rac :: pdlsAux text ((q, rac2) :: t) := by
        simp [pdlsAux]
      have h2 : spansAux text.length (((p, rac) :: (q, rac2) :: t).map (fun m => m.1)) =
          (p, q) :: spansAux text.length (((q, rac2) :: t).map (fun m => m.1)) := by
        simp [spansAux]
      rw [h1, h2]
      simp only [List.map_cons, List.zip_cons_cons, List.map]
      refine List.cons_eq_cons.mpr ⟨rfl, ?_⟩
      simpa using ih

theorem racPositions_chain (text : Chars) :
    List.Chain' (· < ·) (racPositions text) := by
  rw [racPositions, racMatches, List.map_map]
  rw [List.chain'_map]
  exact allMatches_chain racAt text

/-- Claim C2: with `n` RAC matches in the text, `extractPdls` returns
exactly `n` records; block `i` spans from the start of RAC match `i` to the
start of match `i + 1` (text end for the last block), so the blocks are
contiguous, non-overlapping (the match starts are strictly increasing),
the last block ends at the text length, and zero matches give the empty
list. -/
theorem c2_pdl_segmentation :
    ∀ text : Chars,
      (extractPdls text).length = (racPositions text).length ∧
      (racPositions text = [] → extractPdls text = []) ∧
      (pdlSpans text).map Prod.fst = racPositions text ∧
      List.Chain' (fun a b : Nat × Nat => a.2 = b.1) (pdlSpans text) ∧
      List.Chain' (· < ·) (racPositions text) ∧
      (∀ s e, (pdlSpans text).getLast? = some (s, e) → e = text.length) ∧
      extractPdls text =
        ((pdlSpans text).zip ((racMatches text).map (fun m => m.2))).map
          (fun pr => mkPdl (sliceChars text pr.1.1 pr.1.2) pr.2) := by
  intro text
  have hps : racPositions text = (racMatches text).map (fun m => m.1) := rfl
  have hzip : extractPdls text =
      ((pdlSpans text).zip ((racMatches text).map (fun m => m.2))).map
        (fun pr => mkPdl (sliceChars text pr.1.1 pr.1.2) pr.2) := by
    cases he : text.isEmpty with
    | true =>
      have htxt : text = [] := List.isEmpty_iff.mp he
      subst htxt
      have h0 : racMatches ([] : Chars) = [] := by decide
      simp [extractPdls, pdlSpans, racPositions, h0, spansAux]
    | false =>
      have hne : ¬ text.isEmpty = true := by simp [he]
      rw [extractPdls, if_neg hne, pdlsAux_eq]
      rfl
  have hlen : (extractPdls text).length = (racPositions text).length := by
    rw [hzip]
    simp only [List.length_map, List.length_zip, pdlSpans, spansAux_length, hps]
    simp
  refine ⟨hlen, ?_, ?_, ?_, ?_, ?_, hzip⟩
  · intro hnil
    have : (extractPdls text).length = 0 := by rw [hlen, hnil]; rfl
    exact List.length_eq_zero.mp this
  · exact spansAux_fst text.length (racPositions text)
  · exact spansAux_chain text.length (racPositions text)
  · exact racPositions_chain text
  · exact spansAux_last text.length (racPositions text)

/-- Witness for C2 at a text with two RAC codes, its last block ending at
the text length (42). -/
theorem c2_pdl_segmentation_witness :
    (pdlSpans exC2).getLast? = some (23, 42) ∧ (42 : Nat) = exC2.length :=
  ⟨by decide, ((c2_pdl_segmentation exC2).2.2.2.2.2.1) 23 42 (by decide)⟩

/-! ### Claim C3 -/

/-- Counterexample for C3: on this text the BT-reprise end anchor
`LEGENDE` is matched (at offset 49, length 7), yet the extracted block is
cut at the START of that match and does not contain the anchor text, so
the block does not include the end anchor as the claim requires. -/
theorem c3_counterexample :
    btRepriseBlocs exC3 = [exC3bloc] ∧
    (∃ i n a, firstMatchIn btEndAt (exC3.drop 0) = some (i, n, a) ∧
      ((exC3.drop 0).drop i).take n = strL "LEGENDE") ∧
    containsSub (strL "LEGENDE") exC3bloc = false := by
  exact ⟨by decide, ⟨49, 7, (), by decide, by decide⟩, by decide⟩

/-- Claim C3 (amended): of the two call sites, only the generic
`extractBlocks` (the HTA site) produces blocks running up to and including
the end of the end-anchor match; the BT-reprise site cuts its block at the
start of the first end-anchor match (or uses a fixed 1600-character window
when no end anchor follows). -/
theorem c3_blocks_amended :
    ∀ text : Chars,
      (∀ {α β : Type} (sp : Pat α) (ep : Pat β) (b : Chars), b ∈ extractBlocks text sp ep →
        ∃ m, m ∈ allMatches sp text ∧
          ∃ i n, (∃ a, firstMatchIn ep (text.drop m.1) = some (i, n, a)) ∧
            b = (text.drop m.1).take (i + n) ∧
            b.drop i = ((text.drop m.1).drop i).take n) ∧
      (∀ b ∈ btRepriseBlocs text, ∃ m, m ∈ allMatches btRepriseStartAt text ∧
        ((∃ i n a, firstMatchIn btEndAt (text.drop m.1) = some (i, n, a) ∧
            b = (text.drop m.1).take i) ∨
          (firstMatchIn btEndAt (text.drop m.1) = none ∧ b = (text.drop m.1).take 1600))) := by
  intro text
  constructor
  · intro α β sp ep b hb
    rw [extractBlocks] at hb
    by_cases he : text.isEmpty
    · rw [if_pos he] at hb
      simp at hb
    · rw [if_neg he] at hb
      obtain ⟨s, hs, hf⟩ := List.mem_filterMap.mp hb
      obtain ⟨m, hm, hms⟩ := List.mem_map.mp hs
      cases hend : firstMatchIn ep (text.drop s) with
      | none =>
        simp only [hend] at hf
        exact Option.noConfusion hf
      | some r =>
        obtain ⟨i, n, a⟩ := r
        simp only [hend, Option.some.injEq] at hf
        have hbv : b = (text.drop s).take (i + n) := hf.symm
        subst hms
        refine ⟨m, hm, i, n, ⟨a, hend⟩, hbv, ?_⟩
        rw [hbv, List.drop_take]
        congr 1
        omega
  · intro b hb
    rw [btRepriseBlocs] at hb
    obtain ⟨m, hm, hmb⟩ := List.mem_map.mp hb
    refine ⟨m, hm, ?_⟩
    cases hend : firstMatchIn btEndAt (text.drop m.1) with
    | none =>
      right
      simp only [hend] at hmb
      exact ⟨rfl, hmb.symm⟩
    | some r =>
      obtain ⟨i, n, a⟩ := r
      left
      simp only [hend] at hmb
      exact ⟨i, n, a, rfl, hmb.symm⟩

/-- Witness for the amended C3 at a one-block HTA text. -/
theorem c3_blocks_amended_witness :
    exC3w ∈ extractBlocks exC3w htaStartAt htaEndAt ∧
    (∃ m, m ∈ allMatches htaStartAt exC3w ∧
      ∃ i n, (∃ a, firstMatchIn htaEndAt (exC3w.drop m.1) = some (i, n, a)) ∧
        exC3w = (exC3w.drop m.1).take (i + n) ∧
        exC3w.drop i = ((exC3w.drop m.1).drop i).take n) :=
  ⟨by decide, (c3_blocks_amended exC3w).1 htaStartAt htaEndAt exC3w (by decide)⟩

/-! ### Claim C4 -/

theorem findPairs_hasPlus (bloc : Chars) (p : CablePair) (hp : p ∈ findPairsWithSpans bloc) :
    p.hasPlus1x = plus1xTest p.sect := by
  rw [findPairsWithSpans] at hp
  by_cases he : bloc.isEmpty = true
  · rw [if_pos he] at hp
    simp at hp
  · rw [if_neg he] at hp
    obtain ⟨m, _, hf⟩ := List.mem_filterMap.mp hp
    simp only at hf
    split at hf
    · split at hf
      · exact Option.noConfusion hf
      · injection hf with h
        rw [← h]
    · exact Option.noConfusion hf

theorem hta_inner_pres (zone : Chars) :
    ∀ (ps : List CablePair) (acc : List HtaItem),
      (∀ x ∈ acc, plus1xTest x.sect = false) →
      (∀ p ∈ ps, p.hasPlus1x = plus1xTest p.sect) →
      ∀ x ∈ ps.foldl (fun acc p =>
          if p.hasPlus1x then acc
          else
            let cand := mkHtaItem zone p
            if acc.any (fun y => y.longueur_m = cand.longueur_m ∧ y.sect = cand.sect) then acc
            else acc ++ [cand]) acc,
        plus1xTest x.sect = false := by
  intro ps
  induction ps with
  | nil => intro acc hacc _ x hx; exact hacc x hx
  | cons p t ih =>
    intro acc hacc hps x hx
    rw [List.foldl_cons] at hx
    have hstep : ∀ y ∈ (if p.hasPlus1x then acc
        else
          let cand := mkHtaItem zone p
          if acc.any (fun y => y.longueur_m = cand.longueur_m ∧ y.sect = cand.sect) then acc
          else acc ++ [cand]),
        plus1xTest y.sect = false := by
      intro y hy
      by_cases h1 : p.hasPlus1x = true
      · rw [if_pos h1] at hy
        exact hacc y hy
      · rw [if_neg h1] at hy
        simp only at hy
        split at hy
        · exact hacc y hy
        · rcases List.mem_append.mp hy with hy2 | hy2
          · exact hacc y hy2
          · have hcand : y = mkHtaItem zone p := by simpa using hy2
            rw [hcand]
            have hsect : (mkHtaItem zone p).sect = p.sect := rfl
            rw [hsect]
            rw [← hps p (List.mem_cons_self p t)]
            exact Bool.not_eq_true _ ▸ (by simpa using h1)
    exact ih _ hstep (fun q hq => hps q (List.mem_cons_of_mem p hq)) x hx

theorem htaFallbackStep_pres (text : Chars) (items : List HtaItem) (idx : Nat)
    (h : ∀ x ∈ items, plus1xTest x.sect = false) :
    ∀ x ∈ htaFallbackStep text items idx, plus1xTest x.sect = false := by
  unfold htaFallbackStep
  intro x hx
  refine hta_inner_pres _ _ items h ?_ x hx
  intro p hp
  exact findPairs_hasPlus _ p hp

theorem hta_outer_pres (text : Chars) :
    ∀ (idxs : List Nat) (items : List HtaItem),
      (∀ x ∈ items, plus1xTest x.sect = false) →
      ∀ x ∈ idxs.foldl (htaFallbackStep text) items, plus1xTest x.sect = false := by
  intro idxs
  induction idxs with
  | nil => intro items h x hx; exact h x hx
  | cons i t ih =>
    intro items h x hx
    rw [List.foldl_cons] at hx
    exact ih _ (htaFallbackStep_pres text items i h) x hx

theorem htaPrimary_pres (text : Chars) :
    ∀ x ∈ htaItemsPrimary text, plus1xTest x.sect = false := by
  intro x hx
  rw [htaItemsPrimary] at hx
  obtain ⟨bloc, _, hxin⟩ := List.mem_flatMap.mp hx
  obtain ⟨p, hp, hf⟩ := List.mem_filterMap.mp hxin
  by_cases h1 : p.hasPlus1x = true
  · rw [if_pos h1] at hf
    exact Option.noConfusion hf
  · rw [if_neg h1] at hf
    injection hf with h
    rw [← h]
    have hsect : (mkHtaItem bloc p).sect = p.sect := rfl
    rw [hsect, ← findPairs_hasPlus bloc p hp]
    exact Bool.not_eq_true _ ▸ (by simpa using h1)

/-- Counterexample for C4: the section token `3x150 + 1x95 AL` has a
multi-conductor "+ 1x95" part, yet the HTA extractor keeps it — the
internal flag tests the contiguous `+1x` only, which the normalized
section (single spaces kept) does not contain. -/
theorem c4_counterexample :
    extractExtensionsHta exC4 = [⟨120, exC4sect, rasL, ⟨0, 0, false⟩⟩] ∧
    containsSub (strL "+ 1x95") exC4sect = true ∧
    plus1xTest exC4sect = false := by
  exact ⟨by decide, by decide, by decide⟩

/-- Claim C4 (amended): every item returned by `extractExtensionsHta`
(primary anchor-block pass and bare-HTA fallback pass alike) has a section
on which the `/\+1x/i` flag test is false — i.e. pairs are discarded
exactly when the normalized section contains the contiguous characters
`+1x` (case-insensitive); a spaced variant such as `+ 1x95` is not
discarded. -/
theorem c4_hta_no_plus1x_amended :
    ∀ (text : Chars) (x : HtaItem), x ∈ extractExtensionsHta text →
      plus1xTest x.sect = false := by
  intro text x hx
  rw [extractExtensionsHta] at hx
  by_cases he : text.isEmpty = true
  · rw [if_pos he] at hx
    simp at hx
  · rw [if_neg he] at hx
    simp only at hx
    split at hx
    · exact hta_outer_pres text _ _ (htaPrimary_pres text) x hx
    · exact htaPrimary_pres text x hx

/-- Witness for the amended C4 at the counterexample item itself. -/
theorem c4_hta_no_plus1x_amended_witness :
    (⟨120, exC4sect, rasL, ⟨0, 0, false⟩⟩ : HtaItem) ∈ extractExtensionsHta exC4 ∧
    plus1xTest (⟨120, exC4sect, rasL, ⟨0, 0, false⟩⟩ : HtaItem).sect = false :=
  ⟨by decide, c4_hta_no_plus1x_amended exC4 _ (by decide)⟩

/-! ### Claim C6 -/

theorem findPairs_characterize (bloc : Chars) (p : CablePair)
    (hp : p ∈ findPairsWithSpans bloc) :
    ∃ m, m ∈ allMatches sectionAt bloc ∧
      p.span = (m.1, m.1 + m.2.1) ∧
      cableTest (sliceChars bloc (m.1 - 320) m.1) = true ∧
      lastLenVal (sliceChars bloc (m.1 - 320) m.1) = some p.longueur_m := by
  rw [findPairsWithSpans] at hp
  by_cases he : bloc.isEmpty = true
  · rw [if_pos he] at hp
    simp at hp
  · rw [if_neg he] at hp
    obtain ⟨m, hm, hf⟩ := List.mem_filterMap.mp hp
    simp only at hf
    split at hf
    next hc =>
      split at hf
      next => exact Option.noConfusion hf
      next v hll =>
        injection hf with h
        refine ⟨m, hm, ?_, hc, ?_⟩
        · rw [← h]
        · rw [← h]
          exact hll
    next => exact Option.noConfusion hf

/-- Claim C6: a wire-section token whose preceding 320-character window
does not contain "câble" (accent- and case-insensitive) never produces a
cable pair, even when a length mention is present in that window (the
concrete `exC6neg` has a length but no câble and yields no pair); every
accepted pair takes as its length the value of the last length mention of
that backward window. -/
theorem c6_cable_proximity :
    (∀ bloc : Chars,
      (∀ p ∈ findPairsWithSpans bloc, ∃ m, m ∈ allMatches sectionAt bloc ∧
        p.span = (m.1, m.1 + m.2.1) ∧
        cableTest (sliceChars bloc (m.1 - 320) m.1) = true ∧
        lastLenVal (sliceChars bloc (m.1 - 320) m.1) = some p.longueur_m) ∧
      (∀ m, m ∈ allMatches sectionAt bloc →
        cableTest (sliceChars bloc (m.1 - 320) m.1) = false →
        ∀ p ∈ findPairsWithSpans bloc, p.span.1 ≠ m.1)) ∧
    findPairsWithSpans exC6neg = [] ∧ allMatches lengthAt exC6neg ≠ [] := by
  refine ⟨?_, by decide, by decide⟩
  intro bloc
  constructor
  · intro p hp
    exact findPairs_characterize bloc p hp
  · intro m hm hc p hp heq
    obtain ⟨m2, hm2, hspan, hc2, _⟩ := findPairs_characterize bloc p hp
    have hfst : m2.1 = m.1 := by
      rw [hspan] at heq
      exact heq
    have hmm : m2 = m :=
      chain_lt_mem_eq (fun x => x.1) (allMatches sectionAt bloc)
        (allMatches_chain sectionAt bloc) m2 hm2 m hm hfst
    rw [hmm] at hc2
    rw [hc2] at hc
    exact Bool.noConfusion hc

/-- Witness for C6 at the accepted pair of `exC6`. -/
theorem c6_cable_proximity_witness :
    (⟨120, strL "3x150 AL", rasL, false, (21, 29)⟩ : CablePair) ∈ findPairsWithSpans exC6 ∧
    (∃ m, m ∈ allMatches sectionAt exC6 ∧
      (⟨120, strL "3x150 AL", rasL, false, (21, 29)⟩ : CablePair).span = (m.1, m.1 + m.2.1) ∧
      cableTest (sliceChars exC6 (m.1 - 320) m.1) = true ∧
      lastLenVal (sliceChars exC6 (m.1 - 320) m.1) =
        some (⟨120, strL "3x150 AL", rasL, false, (21, 29)⟩ : CablePair).longueur_m) :=
  ⟨by decide, (c6_cable_proximity.1 exC6).1 _ (by decide)⟩

/-! ### Claim C8 -/

/-- Claim C8: when the text holds a `Raccordement en` occurrence, the BT
raccordement extractor returns null exactly when the detected type, the
extracted section and the extracted length are all absent; otherwise it
returns the record holding those three fields plus the accessory set
computed over the block. -/
theorem c8_raccordement_null :
    ∀ (text : Chars) (i n : Nat) (u : Unit),
      firstMatchIn raccEnAt text = some (i, n, u) →
      ((extractRaccordementBt text = none ↔
        (detectTypeRaccordement (raccordBloc text) = none ∧
          extractSectionOnly (raccordBloc text) = none ∧
          extractLengthOnly (raccordBloc text) = none)) ∧
        (∀ r, extractRaccordementBt text = some r →
          r = ⟨detectTypeRaccordement (raccordBloc text), extractSectionOnly (raccordBloc text),
              extractLengthOnly (raccordBloc text), extractAccessoires (raccordBloc text)⟩)) := by
  intro text i n u hmatch
  by_cases he : text.isEmpty = true
  · exfalso
    have htxt : text = [] := List.isEmpty_iff.mp he
    subst htxt
    rw [show firstMatchIn raccEnAt ([] : Chars) = none from by decide] at hmatch
    exact Option.noConfusion hmatch
  · have hbody : extractRaccordementBt text =
        (if detectTypeRaccordement (raccordBloc text) = none ∧
            extractSectionOnly (raccordBloc text) = none ∧
            extractLengthOnly (raccordBloc text) = none then none
          else some ⟨detectTypeRaccordement (raccordBloc text),
              extractSectionOnly (raccordBloc text),
              extractLengthOnly (raccordBloc text),
              extractAccessoires (raccordBloc text)⟩) := by
      simp only [extractRaccordementBt, if_neg he, hmatch]
    rw [hbody]
    by_cases hcond : detectTypeRaccordement (raccordBloc text) = none ∧
        extractSectionOnly (raccordBloc text) = none ∧
        extractLengthOnly (raccordBloc text) = none
    · rw [if_pos hcond]
      exact ⟨by simp [hcond], by intro r h; exact Option.noConfusion h⟩
    · rw [if_neg hcond]
      constructor
      · constructor
        · intro h; exact Option.noConfusion h
        · intro h; exact absurd h hcond
      · intro r h
        injection h with h2
        exact h2.symm

/-- Witness for C8 at a text whose raccordement block yields a derivation
with section and length. -/
theorem c8_raccordement_null_witness :
    firstMatchIn raccEnAt exC8 = some (0, 15, ()) ∧
    (extractRaccordementBt exC8 = none ↔
      (detectTypeRaccordement (raccordBloc exC8) = none ∧
        extractSectionOnly (raccordBloc exC8) = none ∧
        extractLengthOnly (raccordBloc exC8) = none)) :=
  ⟨by decide, (c8_raccordement_null exC8 0 15 () (by decide)).1⟩

/-! ### Claim C7 -/

theorem firstPalierInWindow_mem (txt : Chars) (v : Nat)
    (h : firstPalierInWindow txt = some v) : v ∈ POSTE_PUISSANCES := by
  rw [firstPalierInWindow] at h
  cases hm : firstMatchIn palierAt txt with
  | none => rw [hm] at h; exact Option.noConfusion h
  | some r =>
    obtain ⟨i, k, w⟩ := r
    rw [hm] at h
    simp only at h
    split at h
    · injection h with h2
      rw [← h2]
      assumption
    · exact Option.noConfusion h

theorem fallbackTypeApresPower_mem (bloc : Chars) (v : Nat)
    (h : fallbackTypeApresPower bloc = some v) : v ∈ POSTE_PUISSANCES := by
  rw [fallbackTypeApresPower] at h
  cases hm : firstMatchIn puissanceDeAt bloc with
  | some r =>
    rw [hm] at h
    exact firstPalierInWindow_mem _ v h
  | none =>
    rw [hm] at h
    simp only at h
    cases hv : ((allMatches palierAt bloc).map (fun m => m.2.2)).filter
        (fun w => w ∈ POSTE_PUISSANCES) with
    | nil => rw [hv] at h; exact Option.noConfusion h
    | cons v0 vs =>
      rw [hv] at h
      injection h with h2
      have hmem : v ∈ v0 :: vs := by
        rw [← h2]
        rcases foldl_max_mem_or vs v0 with hx | hx
        · rw [hx]; exact List.mem_cons_self v0 vs
        · exact List.mem_cons_of_mem v0 hx
      rw [← hv] at hmem
      have := (List.mem_filter.mp hmem).2
      exact of_decide_eq_true this

theorem fallbackTypeAvantPower_mem (bloc : Chars) (v : Nat)
    (h : (fallbackTypeAvantPower bloc).2 = some v) : v ∈ POSTE_PUISSANCES := by
  rw [fallbackTypeAvantPower] at h
  cases hm : firstMatchIn deTypeAt bloc with
  | none => rw [hm] at h; exact Option.noConfusion h
  | some r =>
    obtain ⟨i, n, u⟩ := r
    rw [hm] at h
    simp only at h
    exact firstPalierInWindow_mem _ v h

theorem dedupStep_mem : ∀ (l : List TypePair) (prev x : TypePair),
    x ∈ dedupStep prev l → x = prev ∨ x ∈ l := by
  intro l
  induction l with
  | nil =>
    intro prev x hx
    rw [dedupStep] at hx
    left
    simpa using hx
  | cons y t ih =>
    intro prev x hx
    rw [dedupStep] at hx
    split at hx
    · split at hx
      · rcases ih y x hx with h | h
        · right; rw [h]; exact List.mem_cons_self y t
        · right; exact List.mem_cons_of_mem y h
      · rcases ih prev x hx with h | h
        · left; exact h
        · right; exact List.mem_cons_of_mem y h
    · rcases List.mem_cons.mp hx with h | h
      · left; exact h
      · rcases ih y x h with h2 | h2
        · right; rw [h2]; exact List.mem_cons_self y t
        · right; exact List.mem_cons_of_mem y h2

theorem dedupPairs_mem (l : List TypePair) (x : TypePair) (hx : x ∈ dedupPairs l) : x ∈ l := by
  cases l with
  | nil => rw [dedupPairs] at hx; simp at hx
  | cons y t =>
    rw [dedupPairs] at hx
    rcases dedupStep_mem t y x hx with h | h
    · rw [h]; exact List.mem_cons_self y t
    · exact List.mem_cons_of_mem y h

theorem buildTypePowerPairs_mem (bloc : Chars) (pr : TypePair)
    (hpr : pr ∈ buildTypePowerPairs bloc) (v : Nat) (hv : pr.puissance_kva = some v) :
    v ∈ POSTE_PUISSANCES := by
  rw [buildTypePowerPairs] at hpr
  simp only at hpr
  have hmem := dedupPairs_mem _ pr hpr
  obtain ⟨o, _, ho⟩ := List.mem_map.mp hmem
  rw [← ho] at hv
  simp only at hv
  exact firstPalierInWindow_mem _ v hv

/-- Claim C7: every power (kVA) carried by a non-null `PosteDpTravaux` —
in `type_avant` as in `type_apres`, through the pairing, the phrase, the
maximum-value or the `de type` fallback path — belongs to the fixed palier
set {50, 100, 160, 250, 400, 630, 1000}. -/
theorem c7_palier_membership :
    ∀ (text : Chars) (tr : PosteDpTravaux), extractPosteDpTravaux text = some tr →
      (∀ v, tr.type_avant.puissance_kva = some v → v ∈ POSTE_PUISSANCES) ∧
      (∀ v, tr.type_apres.puissance_kva = some v → v ∈ POSTE_PUISSANCES) := by
  intro text tr h
  unfold extractPosteDpTravaux at h
  cases hb : extractFirstPosteBlock text with
  | none => rw [hb] at h; exact Option.noConfusion h
  | some bloc =>
    rw [hb] at h
    simp only at h
    split at h
    · exact Option.noConfusion h
    · injection h with h2
      rw [← h2]
      simp only
      cases hps : buildTypePowerPairs bloc with
      | nil =>
        simp only
        constructor
        · intro v hv
          exact fallbackTypeAvantPower_mem bloc v hv
        · intro v hv
          exact fallbackTypeApresPower_mem bloc v hv
      | cons p0 rest =>
        cases rest with
        | nil =>
          simp only
          constructor
          · intro v hv
            exact buildTypePowerPairs_mem bloc p0 (hps ▸ List.mem_cons_self p0 []) v hv
          · intro v hv
            exact fallbackTypeApresPower_mem bloc v hv
        | cons p1 rest2 =>
          simp only
          constructor
          · intro v hv
            exact buildTypePowerPairs_mem bloc p0
              (hps ▸ List.mem_cons_self p0 (p1 :: rest2)) v hv
          · intro v hv
            exact buildTypePowerPairs_mem bloc p1
              (hps ▸ List.mem_cons_of_mem p0 (List.mem_cons_self p1 rest2)) v hv

/-- Witness for C7: a text whose single type-power pair carries 160 kVA. -/
theorem c7_palier_membership_witness :
    extractPosteDpTravaux exC7 =
      some ⟨some OpKind.mutation, none, ⟨some (strL "H61"), some 160⟩,
        ⟨none, none, some 160⟩⟩ ∧
    160 ∈ POSTE_PUISSANCES :=
  ⟨by decide,
    (c7_palier_membership exC7
      ⟨some OpKind.mutation, none, ⟨some (strL "H61"), some 160⟩, ⟨none, none, some 160⟩⟩
      (by decide)).1 160 rfl⟩

/-! ### Claim C10 -/

theorem litCI_append (p : Chars) : ∀ (l r : Chars), p.length ≤ l.length →
    litCI p (l ++ r) = litCI p l := by
  induction p with
  | nil => intro l r _; simp [litCI]
  | cons x xt ih =>
    intro l r hl
    cases l with
    | nil => simp at hl
    | cons c ct =>
      simp only [List.cons_append, litCI, List.append_eq]
      rw [ih ct r (by simpa using hl)]

theorem countLeading_replicate_append (p : Char → Bool) (c : Char) (hc : p c = true) :
    ∀ (k : Nat) (l : Chars), countLeading p (List.replicate k c ++ l) = k + countLeading p l := by
  intro k
  induction k with
  | zero => intro l; simp
  | succ n ih =>
    intro l
    rw [List.replicate_succ, List.cons_append, countLeading, if_pos hc, ih]
    omega

theorem drop_replicate_space (k : Nat) (B : Chars) :
    (List.replicate k ' ' ++ B).drop k = B := by
  have h : (List.replicate k ' ').length = k := List.length_replicate k ' '
  nth_rewrite 1 [← h]
  rw [List.drop_left]


theorem drop_replicate_space_add (k j : Nat) (B : Chars) :
    (List.replicate k ' ' ++ B).drop (k + j) = B.drop j := by
  rw [← List.drop_drop, drop_replicate_space]

theorem take_structured (a k j : Nat) (A B : Chars) (ha : A.length = a) :
    (A ++ (List.replicate k ' ' ++ B)).take (a + k + j) =
      A ++ (List.replicate k ' ' ++ B.take j) := by
  rw [List.take_append_eq_append_take, ha]
  have h1 : A.take (a + k + j) = A := List.take_of_length_le (by omega)
  have h2 : a + k + j - a = k + j := by omega
  rw [h1, h2, List.take_append_eq_append_take, List.length_replicate]
  have h3 : (List.replicate k ' ').take (k + j) = List.replicate k ' ' :=
    List.take_of_length_le (by simp)
  have h4 : k + j - k = j := by omega
  rw [h3, h4]

theorem kwD_exC10 : ∀ X : Chars, kwDeplacement (strL "Mutation" ++ X) = none := by
  intro X
  rw [show strL "Mutation" ++ X = 'M' :: 'u' :: (strL "tation" ++ X) from rfl]
  simp [kwDeplacement, lowerChar]

theorem kwC_exC10 : ∀ X : Chars, kwCreation (strL "Mutation" ++ X) = none := by
  intro X
  rw [show strL "Mutation" ++ X = 'M' :: 'u' :: 't' :: (strL "ation" ++ X) from rfl]
  simp [kwCreation, lowerChar]

theorem litCI_head_ne (p : Char) (pt : Chars) (c : Char) (t : Chars)
    (h : ¬ lowerChar c = p) : litCI (p :: pt) (c :: t) = none := by
  simp [litCI, h]

theorem kwA_exC10 : ∀ X : Chars, kwAdaptation (strL "Mutation" ++ X) = none := by
  intro X
  rw [kwAdaptation,
    show strL "Mutation" ++ X = 'M' :: (strL "utation" ++ X) from rfl,
    show strL "adaptation" = 'a' :: strL "daptation" from rfl,
    litCI_head_ne 'a' _ 'M' _ (by decide)]
  rfl

theorem kwM_exC10 : ∀ X : Chars, kwMutation (strL "Mutation" ++ X) = some 8 := by
  intro X
  rw [kwMutation, litCI_append (strL "mutation") (strL "Mutation") X (by decide)]
  decide

theorem kw_exC10 : ∀ X : Chars, posteKeywordAt (strL "Mutation" ++ X) = some 8 := by
  intro X
  rw [posteKeywordAt, kwD_exC10, kwC_exC10, kwA_exC10, kwM_exC10]

theorem d1 : posteEvtStartAt none exC10 = some (2201, strL "Mutation") := by
  have hx : exC10 = strL "Mutation" ++ (List.replicate 2182 ' ' ++ strL "du poste DP") := by
    rw [exC10, List.append_assoc]
  have e1 : (strL "Mutation" ++ (List.replicate 2182 ' ' ++ strL "du poste DP")).drop 8
      = List.replicate 2182 ' ' ++ strL "du poste DP" := by
    nth_rewrite 1 [show (8 : Nat) = (strL "Mutation").length from rfl]
    exact List.drop_left _ _
  have e2 : countLeading isSpaceChar (List.replicate 2182 ' ' ++ strL "du poste DP") = 2182 := by
    rw [countLeading_replicate_append isSpaceChar ' ' (by decide)]
    rw [show countLeading isSpaceChar (strL "du poste DP") = 0 from by decide]
  have e3 : (List.replicate 2182 ' ' ++ strL "du poste DP").drop 2182 = strL "du poste DP" :=
    drop_replicate_space _ _
  have e4 : litCI (strL "du") (strL "du poste DP") = some 2 := by decide
  have e5a : (List.replicate 2182 ' ' ++ strL "du poste DP").drop (2182 + 2) = strL " poste DP" := by
    rw [drop_replicate_space_add]
    decide
  have e5b : (List.replicate 2182 ' ' ++ strL "du poste DP").drop 2184 = strL " poste DP" := by
    rw [show (2184 : Nat) = 2182 + 2 from rfl]
    exact e5a
  have e9 : (strL "Mutation" ++ (List.replicate 2182 ' ' ++ strL "du poste DP")).take 8
      = strL "Mutation" := by
    nth_rewrite 1 [show (8 : Nat) = (strL "Mutation").length from rfl]
    exact List.take_left _ _
  rw [hx]
  simp only [posteEvtStartAt, prevIsWord, kw_exC10, e1, e2, e3, e4, e5a, e5b, e9,
    Bool.false_eq_true, if_false]
  decide

theorem d2 : posteEvtStartAt none exC10bloc = none := by
  have hx : exC10bloc = strL "Mutation" ++ (List.replicate 2182 ' ' ++ strL "du poste D") := by
    rw [exC10bloc, List.append_assoc]
  have e1 : (strL "Mutation" ++ (List.replicate 2182 ' ' ++ strL "du poste D")).drop 8
      = List.replicate 2182 ' ' ++ strL "du poste D" := by
    nth_rewrite 1 [show (8 : Nat) = (strL "Mutation").length from rfl]
    exact List.drop_left _ _
  have e2 : countLeading isSpaceChar (List.replicate 2182 ' ' ++ strL "du poste D") = 2182 := by
    rw [countLeading_replicate_append isSpaceChar ' ' (by decide)]
    rw [show countLeading isSpaceChar (strL "du poste D") = 0 from by decide]
  have e3 : (List.replicate 2182 ' ' ++ strL "du poste D").drop 2182 = strL "du poste D" :=
    drop_replicate_space _ _
  have e4 : litCI (strL "du") (strL "du poste D") = some 2 := by decide
  have e5a : (List.replicate 2182 ' ' ++ strL "du poste D").drop (2182 + 2) = strL " poste D" := by
    rw [drop_replicate_space_add]
    decide
  have e5b : (List.replicate 2182 ' ' ++ strL "du poste D").drop 2184 = strL " poste D" := by
    rw [show (2184 : Nat) = 2182 + 2 from rfl]
    exact e5a
  rw [hx]
  simp only [posteEvtStartAt, prevIsWord, kw_exC10, e1, e2, e3, e4, e5a, e5b,
    Bool.false_eq_true, if_false]
  decide

theorem findFromAux_cons_none (pat : Pat α) (prev : Option Char) (c : Char) (t : Chars)
    (idx : Nat) (h : pat prev (c :: t) = none) :
    findFromAux pat prev (c :: t) idx = findFromAux pat (some c) t (idx + 1) := by
  simp only [findFromAux, h]

theorem findFromAux_head_some (pat : Pat α) (prev : Option Char) (s : Chars) (idx n : Nat)
    (a : α) (h : pat prev s = some (n, a)) :
    findFromAux pat prev s idx = some (idx, n, a) := by
  cases s with
  | nil => simp [findFromAux, h]
  | cons c t => simp [findFromAux, h]

theorem prevPast_cons (prev : Option Char) (c : Char) (t : Chars) :
    prevPast prev (c :: t) = prevPast (some c) t := by
  cases t with
  | nil => simp [prevPast]
  | cons d t2 =>
    rw [prevPast, prevPast, List.getLast?_cons_cons]
    cases hgl : (d :: t2).getLast? with
    | some x => rfl
    | none =>
      rw [List.getLast?_eq_none_iff] at hgl
      exact List.noConfusion hgl

theorem gate_scan (pat : Pat α) (g : Option Char → Char → Bool) (hg : HeadGate pat g) :
    ∀ (A B : Chars) (prev : Option Char) (idx : Nat),
      gateClear g prev A = true →
      findFromAux pat prev (A ++ B) idx = findFromAux pat (prevPast prev A) B (idx + A.length) := by
  intro A
  induction A with
  | nil => intro B prev idx _; simp [prevPast]
  | cons c t ih =>
    intro B prev idx hclear
    rw [gateClear] at hclear
    have h1 : g prev c = false := by
      cases hgc : g prev c
      · rfl
      · rw [hgc] at hclear; simp at hclear
    have h2 : gateClear g (some c) t = true := by
      cases hgc : gateClear g (some c) t
      · rw [hgc] at hclear; simp at hclear
      · rfl
    rw [List.cons_append,
      findFromAux_cons_none pat prev c (t ++ B) idx (hg prev c (t ++ B) h1),
      ih B (some c) (idx + 1) h2, prevPast_cons]
    congr 1
    simp
    omega

theorem gate_scan_replicate (pat : Pat α) (g : Option Char → Char → Bool)
    (hg : HeadGate pat g) (hsp : ∀ pv, g pv ' ' = false) :
    ∀ (k : Nat) (B : Chars) (prev : Option Char) (idx : Nat),
      findFromAux pat prev (List.replicate k ' ' ++ B) idx =
        findFromAux pat (if k = 0 then prev else some ' ') B (idx + k) := by
  intro k
  induction k with
  | zero => intro B prev idx; simp
  | succ m ih =>
    intro B prev idx
    rw [List.replicate_succ, List.cons_append,
      findFromAux_cons_none pat prev ' ' _ idx (hg prev ' ' _ (hsp prev)),
      ih B (some ' ') (idx + 1)]
    have : (if m = 0 then some ' ' else some ' ') = some ' ' := by simp
    rw [this]
    simp only [Nat.succ_ne_zero, if_false]
    congr 1
    omega

theorem litEq_head_ne (p : Char) (pt : Chars) (c : Char) (t : Chars)
    (h : ¬ c = p) : litEq (p :: pt) (c :: t) = none := by
  simp [litEq, h]

theorem letterGate_space (x : Char) (hx : ¬ (' ' : Char) = x) :
    ∀ pv, letterGate x pv ' ' = false := by
  intro pv
  rw [letterGate]
  simp [show lowerChar ' ' = ' ' from rfl, hx]

theorem headGate_posteEvtEndAt : HeadGate posteEvtEndAt (letterGate 'p') := by
  intro pv c t h
  rw [letterGate] at h
  cases hw : prevIsWord pv with
  | true => simp [posteEvtEndAt, hw]
  | false =>
    rw [hw] at h
    have hc : ¬ lowerChar c = 'p' := by simpa using h
    simp only [posteEvtEndAt, hw, Bool.false_eq_true, if_false]
    rw [show strL "prise" = 'p' :: strL "rise" from rfl, litCI_head_ne _ _ _ _ hc]

theorem kwD_head_ne (c : Char) (t : Chars) (h : ¬ lowerChar c = 'd') :
    kwDeplacement (c :: t) = none := by
  cases t with
  | nil => rfl
  | cons c1 r => simp [kwDeplacement, h]

theorem kwC_head_ne (c : Char) (t : Chars) (h : ¬ lowerChar c = 'c') :
    kwCreation (c :: t) = none := by
  cases t with
  | nil => rfl
  | cons c1 r =>
    cases r with
    | nil => rfl
    | cons c2 r2 => simp [kwCreation, h]

theorem kwA_head_ne (c : Char) (t : Chars) (h : ¬ lowerChar c = 'a') :
    kwAdaptation (c :: t) = none := by
  rw [kwAdaptation, show strL "adaptation" = 'a' :: strL "daptation" from rfl,
    litCI_head_ne _ _ _ _ h]
  rfl

theorem kwM_head_ne (c : Char) (t : Chars) (h : ¬ lowerChar c = 'm') :
    kwMutation (c :: t) = none := by
  rw [kwMutation, show strL "mutation" = 'm' :: strL "utation" from rfl,
    litCI_head_ne _ _ _ _ h]
  rfl

theorem headGate_posteEvtStartAt : HeadGate posteEvtStartAt (multiGate (strL "dcam")) := by
  intro pv c t h
  cases hw : prevIsWord pv with
  | true => simp [posteEvtStartAt, hw]
  | false =>
    rw [multiGate, hw] at h
    simp only [Bool.not_false, Bool.true_and] at h
    have hd : ¬ lowerChar c = 'd' := fun he => by rw [he] at h; exact absurd h (by decide)
    have hc2 : ¬ lowerChar c = 'c' := fun he => by rw [he] at h; exact absurd h (by decide)
    have ha : ¬ lowerChar c = 'a' := fun he => by rw [he] at h; exact absurd h (by decide)
    have hm : ¬ lowerChar c = 'm' := fun he => by rw [he] at h; exact absurd h (by decide)
    simp only [posteEvtStartAt, hw, Bool.false_eq_true, if_false]
    rw [posteKeywordAt, kwD_head_ne c t hd, kwC_head_ne c t hc2, kwA_head_ne c t ha,
      kwM_head_ne c t hm]

theorem headGate_typeApresAt : HeadGate typeApresAt (letterGate 'a') := by
  intro pv c t h
  rw [letterGate] at h
  cases hw : prevIsWord pv with
  | true => simp [typeApresAt, hw]
  | false =>
    rw [hw] at h
    have hc : ¬ lowerChar c = 'a' := by simpa using h
    simp only [typeApresAt, hw, Bool.false_eq_true, if_false]
    rw [show strL "adaptation" = 'a' :: strL "daptation" from rfl, litCI_head_ne _ _ _ _ hc]

theorem headGate_cabineHauteAt : HeadGate cabineHauteAt (letterGate 'c') := by
  intro pv c t h
  rw [letterGate] at h
  cases hw : prevIsWord pv with
  | true => simp [cabineHauteAt, hw]
  | false =>
    rw [hw] at h
    have hc : ¬ lowerChar c = 'c' := by simpa using h
    simp only [cabineHauteAt, hw, Bool.false_eq_true, if_false]
    rw [show strL "cabine" = 'c' :: strL "abine" from rfl, litCI_head_ne _ _ _ _ hc]

theorem headGate_cabineBasseAt : HeadGate cabineBasseAt (letterGate 'c') := by
  intro pv c t h
  rw [letterGate] at h
  cases hw : prevIsWord pv with
  | true => simp [cabineBasseAt, hw]
  | false =>
    rw [hw] at h
    have hc : ¬ lowerChar c = 'c' := by simpa using h
    simp only [cabineBasseAt, hw, Bool.false_eq_true, if_false]
    rw [show strL "cabine" = 'c' :: strL "abine" from rfl, litCI_head_ne _ _ _ _ hc]

theorem headGate_codeAt (x : Char) (xs : Chars) :
    HeadGate (codeAt (x :: xs)) (letterGate x) := by
  intro pv c t h
  rw [letterGate] at h
  cases hw : prevIsWord pv with
  | true => simp [codeAt, hw]
  | false =>
    rw [hw] at h
    have hc : ¬ lowerChar c = x := by simpa using h
    simp only [codeAt, hw, Bool.false_eq_true, if_false]
    rw [litCI_head_ne _ _ _ _ hc]

theorem headGate_deTypeAt : HeadGate deTypeAt (letterGate 'd') := by
  intro pv c t h
  rw [letterGate] at h
  cases hw : prevIsWord pv with
  | true => simp [deTypeAt, hw]
  | false =>
    rw [hw] at h
    have hc : ¬ lowerChar c = 'd' := by simpa using h
    simp only [deTypeAt, hw, Bool.false_eq_true, if_false]
    rw [show strL "de" = 'd' :: strL "e" from rfl, litCI_head_ne _ _ _ _ hc]

theorem headGate_puissanceDeAt : HeadGate puissanceDeAt (letterGateNP 'd') := by
  intro pv c t h
  rw [letterGateNP] at h
  have hc : ¬ lowerChar c = 'd' := by simpa using h
  cases t with
  | nil => rfl
  | cons c1 r => simp [puissanceDeAt, hc]

theorem headGate_palierAt : HeadGate palierAt digitGate := by
  intro pv c t h
  rw [digitGate] at h
  cases hw : prevIsWord pv with
  | true => simp [palierAt, hw]
  | false =>
    rw [hw] at h
    have hdig : c.isDigit = false := by simpa using h
    have h5 : ¬ c = '5' := fun he => by rw [he] at hdig; exact absurd hdig (by decide)
    have h1 : ¬ c = '1' := fun he => by rw [he] at hdig; exact absurd hdig (by decide)
    have h2 : ¬ c = '2' := fun he => by rw [he] at hdig; exact absurd hdig (by decide)
    have h4 : ¬ c = '4' := fun he => by rw [he] at hdig; exact absurd hdig (by decide)
    have h6 : ¬ c = '6' := fun he => by rw [he] at hdig; exact absurd hdig (by decide)
    simp only [palierAt, hw, Bool.false_eq_true, if_false]
    rw [List.findSome?_eq_none_iff]
    intro cand hcand
    fin_cases hcand
    · rw [show strL "50" = '5' :: strL "0" from rfl]
      rw [litEq_head_ne _ _ _ _ h5]
    · rw [show strL "100" = '1' :: strL "00" from rfl]
      rw [litEq_head_ne _ _ _ _ h1]
    · rw [show strL "160" = '1' :: strL "60" from rfl]
      rw [litEq_head_ne _ _ _ _ h1]
    · rw [show strL "250" = '2' :: strL "50" from rfl]
      rw [litEq_head_ne _ _ _ _ h2]
    · rw [show strL "400" = '4' :: strL "00" from rfl]
      rw [litEq_head_ne _ _ _ _ h4]
    · rw [show strL "630" = '6' :: strL "30" from rfl]
      rw [litEq_head_ne _ _ _ _ h6]
    · rw [show strL "1000" = '1' :: strL "000" from rfl]
      rw [litEq_head_ne _ _ _ _ h1]

theorem scanNone_structured (pat : Pat α) (g : Option Char → Char → Bool)
    (hg : HeadGate pat g) (hsp : ∀ pv, g pv ' ' = false)
    (A B : Chars) (k : Nat) (hA : gateClear g none A = true) (hk : ¬ k = 0)
    (hB : findFromAux pat (some ' ') B (A.length + k) = none) :
    firstMatchIn pat (A ++ (List.replicate k ' ' ++ B)) = none := by
  rw [firstMatchIn, gate_scan pat g hg A _ none 0 hA,
    gate_scan_replicate pat g hg hsp k B _ _, if_neg hk, Nat.zero_add]
  exact hB

theorem digitGate_space : ∀ pv, digitGate pv ' ' = false := by
  intro pv
  rw [digitGate]
  simp [show (' ' : Char).isDigit = false from by decide]

theorem multiGate_dcam_space : ∀ pv, multiGate (strL "dcam") pv ' ' = false := by
  intro pv
  rw [multiGate]
  have h : (strL "dcam").contains (lowerChar ' ') = false := by decide
  rw [h, Bool.and_false]

theorem letterGateNP_space (x : Char) (hx : ¬ (' ' : Char) = x) :
    ∀ pv, letterGateNP x pv ' ' = false := by
  intro pv
  rw [letterGateNP]
  simp [show lowerChar ' ' = ' ' from rfl, hx]

theorem exC10bloc_eq :
    exC10bloc = strL "Mutation" ++ (List.replicate 2182 ' ' ++ strL "du poste D") := by
  rw [exC10bloc, List.append_assoc]

theorem exC10_eq :
    exC10 = strL "Mutation" ++ (List.replicate 2182 ' ' ++ strL "du poste DP") := by
  rw [exC10, List.append_assoc]

theorem scanNone_c10bloc (pat : Pat α) (g : Option Char → Char → Bool)
    (hg : HeadGate pat g) (hsp : ∀ pv, g pv ' ' = false)
    (hA : gateClear g none (strL "Mutation") = true)
    (hB : findFromAux pat (some ' ') (strL "du poste D")
      ((strL "Mutation").length + 2182) = none) :
    firstMatchIn pat exC10bloc = none := by
  rw [exC10bloc_eq]
  exact scanNone_structured pat g hg hsp _ _ _ hA (by decide) hB

theorem scanNone_c10text (pat : Pat α) (g : Option Char → Char → Bool)
    (hg : HeadGate pat g) (hsp : ∀ pv, g pv ' ' = false)
    (hA : gateClear g none (strL "Mutation") = true)
    (hB : findFromAux pat (some ' ') (strL "du poste DP")
      ((strL "Mutation").length + 2182) = none) :
    firstMatchIn pat exC10 = none := by
  rw [exC10_eq]
  exact scanNone_structured pat g hg hsp _ _ _ hA (by decide) hB

theorem s0_evtEnd : firstMatchIn posteEvtEndAt exC10 = none :=
  scanNone_c10text _ _ headGate_posteEvtEndAt (letterGate_space 'p' (by decide))
    (by decide) (by decide)

theorem s2_typeApres : firstMatchIn typeApresAt exC10bloc = none :=
  scanNone_c10bloc _ _ headGate_typeApresAt (letterGate_space 'a' (by decide))
    (by decide) (by decide)

theorem s3_cabH : firstMatchIn cabineHauteAt exC10bloc = none :=
  scanNone_c10bloc _ _ headGate_cabineHauteAt (letterGate_space 'c' (by decide))
    (by decide) (by decide)

theorem s4_cabB : firstMatchIn cabineBasseAt exC10bloc = none :=
  scanNone_c10bloc _ _ headGate_cabineBasseAt (letterGate_space 'c' (by decide))
    (by decide) (by decide)

theorem s5_h61 : firstMatchIn (codeAt (strL "h61")) exC10bloc = none :=
  scanNone_c10bloc _ _ (headGate_codeAt 'h' (strL "61"))
    (letterGate_space 'h' (by decide)) (by decide) (by decide)

theorem s6_prcs : firstMatchIn (codeAt (strL "prcs")) exC10bloc = none :=
  scanNone_c10bloc _ _ (headGate_codeAt 'p' (strL "rcs"))
    (letterGate_space 'p' (by decide)) (by decide) (by decide)

theorem s7_rc : firstMatchIn (codeAt (strL "rc")) exC10bloc = none :=
  scanNone_c10bloc _ _ (headGate_codeAt 'r' (strL "c"))
    (letterGate_space 'r' (by decide)) (by decide) (by decide)

theorem s8_pac : firstMatchIn (codeAt (strL "pac")) exC10bloc = none :=
  scanNone_c10bloc _ _ (headGate_codeAt 'p' (strL "ac"))
    (letterGate_space 'p' (by decide)) (by decide) (by decide)

theorem s9_puie : firstMatchIn (codeAt (strL "puie")) exC10bloc = none :=
  scanNone_c10bloc _ _ (headGate_codeAt 'p' (strL "uie"))
    (letterGate_space 'p' (by decide)) (by decide) (by decide)

theorem s10_ch : firstMatchIn (codeAt (strL "ch")) exC10bloc = none :=
  scanNone_c10bloc _ _ (headGate_codeAt 'c' (strL "h"))
    (letterGate_space 'c' (by decide)) (by decide) (by decide)

theorem s11_cb : firstMatchIn (codeAt (strL "cb")) exC10bloc = none :=
  scanNone_c10bloc _ _ (headGate_codeAt 'c' (strL "b"))
    (letterGate_space 'c' (by decide)) (by decide) (by decide)

theorem s12_deType : firstMatchIn deTypeAt exC10bloc = none :=
  scanNone_c10bloc _ _ headGate_deTypeAt (letterGate_space 'd' (by decide))
    (by decide) (by decide)

theorem s13_puisDe : firstMatchIn puissanceDeAt exC10bloc = none :=
  scanNone_c10bloc _ _ headGate_puissanceDeAt (letterGateNP_space 'd' (by decide))
    (by decide) (by decide)

theorem s14_palier : firstMatchIn palierAt exC10bloc = none :=
  scanNone_c10bloc _ _ headGate_palierAt digitGate_space (by decide) (by decide)

theorem s1_evtStart : firstMatchIn posteEvtStartAt exC10bloc = none := by
  have hcons : exC10bloc =
      'M' :: (strL "utation" ++ (List.replicate 2182 ' ' ++ strL "du poste D")) := by
    rw [exC10bloc_eq]
    rfl
  rw [firstMatchIn, hcons,
    findFromAux_cons_none posteEvtStartAt none 'M' _ 0 (hcons ▸ d2),
    gate_scan posteEvtStartAt _ headGate_posteEvtStartAt (strL "utation") _ (some 'M') 1
      (by decide),
    gate_scan_replicate posteEvtStartAt _ headGate_posteEvtStartAt multiGate_dcam_space]
  decide

theorem allMatches_nil_of (pat : Pat α) (s : Chars) (h : firstMatchIn pat s = none) :
    allMatches pat s = [] := by
  rw [allMatches]
  rw [show s.length + 1 = Nat.succ s.length from rfl]
  rw [allMatchesAux]
  rw [show findFromAux pat none s 0 = none from h]

theorem exC10_take : exC10.take 2200 = exC10bloc := by
  rw [exC10_eq, show (2200 : Nat) = 8 + 2182 + 10 from rfl,
    take_structured 8 2182 10 (strL "Mutation") (strL "du poste DP") (by decide),
    show (strL "du poste DP").take 10 = strL "du poste D" from by decide, exC10bloc_eq]

theorem hfb_c10 : extractFirstPosteBlock exC10 = some exC10bloc := by
  rw [extractFirstPosteBlock]
  rw [show firstMatchIn posteEvtStartAt exC10 = some (0, 2201, strL "Mutation") from by
    rw [firstMatchIn]; exact findFromAux_head_some _ _ _ _ _ _ d1]
  simp only [List.drop_zero]
  rw [s0_evtEnd]
  rw [exC10_take]

theorem hpairs_c10 : buildTypePowerPairs exC10bloc = [] := by
  rw [buildTypePowerPairs, scanTypeOccurrences]
  rw [if_neg (by rw [show exC10bloc.isEmpty = false from by rw [exC10bloc_eq]; rfl]; simp)]
  rw [allMatches_nil_of _ _ s3_cabH, allMatches_nil_of _ _ s4_cabB]
  rw [POSTE_TYPES]
  simp only [List.flatMap_cons, List.flatMap_nil,
    allMatches_nil_of _ _ s5_h61, allMatches_nil_of _ _ s6_prcs,
    allMatches_nil_of _ _ s7_rc, allMatches_nil_of _ _ s8_pac,
    allMatches_nil_of _ _ s9_puie, allMatches_nil_of _ _ s10_ch,
    allMatches_nil_of _ _ s11_cb, List.map_nil, List.nil_append, List.append_nil]
  rfl

theorem hfav_c10 : fallbackTypeAvantPower exC10bloc = (none, none) := by
  rw [fallbackTypeAvantPower, s12_deType]

theorem hfap_c10 : fallbackTypeApresPower exC10bloc = none := by
  rw [fallbackTypeApresPower, s13_puisDe]
  rw [allMatches_nil_of _ _ s14_palier]
  rfl


theorem extractPosteDpTravaux_reduced (text bloc : Chars)
    (hb : extractFirstPosteBlock text = some bloc)
    (h1 : firstMatchIn posteEvtStartAt bloc = none)
    (h2 : firstMatchIn typeApresAt bloc = none)
    (h3 : buildTypePowerPairs bloc = [])
    (h4 : fallbackTypeAvantPower bloc = (none, none))
    (h5 : fallbackTypeApresPower bloc = none) :
    extractPosteDpTravaux text = none := by
  unfold extractPosteDpTravaux
  rw [hb]
  simp only [h1, h2, h3, h4, h5]
  rw [show opOf [] = none from by decide]
  simp

/-- Counterexample for C10: on this input the step-1 operation block IS
found (the start anchor matches, with 2182 characters of whitespace inside
it), but the 2200-character fallback block cuts the start match short, so
the keyword is not re-matched inside the block, every extracted field is
null, and the all-null exit fires: `extractPosteDpTravaux` returns null
although the block was found. -/
theorem c10_counterexample :
    (extractFirstPosteBlock exC10).isSome = true ∧ extractPosteDpTravaux exC10 = none := by
  constructor
  · rw [hfb_c10]
    rfl
  · exact extractPosteDpTravaux_reduced exC10 exC10bloc hfb_c10 s1_evtStart s2_typeApres
      hpairs_c10 hfav_c10 hfap_c10

theorem isPrefixOf_self : ∀ l : Chars, l.isPrefixOf l = true := by
  intro l
  induction l with
  | nil => rfl
  | cons c t ih => simp [List.isPrefixOf, ih]

theorem containsSub_self (l : Chars) : containsSub l l = true := by
  unfold containsSub
  rw [if_pos (isPrefixOf_self l)]

theorem take_map_of_litCI (p : Chars) (s : Chars) (m : Nat) (h : litCI p s = some m) :
    (s.take p.length).map lowerChar = p :=
  (litCI_isSome_iff p s).mp (by simp [h])

theorem kwDeplacement_capture (s : Chars) (k : Nat) (h : kwDeplacement s = some k) :
    k = 11 ∧ ((s.take 11).map lowerChar = strL "deplacement" ∨
      (s.take 11).map lowerChar = strL "déplacement") := by
  cases s with
  | nil => exact Option.noConfusion h
  | cons c0 s1 =>
    cases s1 with
    | nil => exact Option.noConfusion h
    | cons c1 r =>
      rw [kwDeplacement] at h
      split at h
      next hcond =>
        cases hl : litCI (strL "placement") r with
        | none => rw [hl] at h; exact Option.noConfusion h
        | some m =>
          rw [hl] at h
          injection h with hk
          refine ⟨hk.symm, ?_⟩
          have hr : (r.take 9).map lowerChar = strL "placement" :=
            take_map_of_litCI _ r m hl
          have htake : (c0 :: c1 :: r).take 11 = c0 :: c1 :: r.take 9 := rfl
          rw [htake]
          simp only [List.map_cons]
          rcases hcond.2 with he | he
          · left
            rw [hcond.1, he, hr]
            rfl
          · right
            rw [hcond.1, he, hr]
            rfl
      next => exact Option.noConfusion h

theorem kwCreation_capture (s : Chars) (k : Nat) (h : kwCreation s = some k) :
    k = 8 ∧ ((s.take 8).map lowerChar = strL "creation" ∨
      (s.take 8).map lowerChar = strL "création") := by
  cases s with
  | nil => exact Option.noConfusion h
  | cons c0 s1 =>
    cases s1 with
    | nil => exact Option.noConfusion h
    | cons c1 s2 =>
      cases s2 with
      | nil => exact Option.noConfusion h
      | cons c2 r =>
        rw [kwCreation] at h
        split at h
        next hcond =>
          cases hl : litCI (strL "ation") r with
          | none => rw [hl] at h; exact Option.noConfusion h
          | some m =>
            rw [hl] at h
            injection h with hk
            refine ⟨hk.symm, ?_⟩
            have hr : (r.take 5).map lowerChar = strL "ation" :=
              take_map_of_litCI _ r m hl
            have htake : (c0 :: c1 :: c2 :: r).take 8 = c0 :: c1 :: c2 :: r.take 5 := rfl
            rw [htake]
            simp only [List.map_cons]
            rcases hcond.2.2 with he | he
            · left
              rw [hcond.1, hcond.2.1, he, hr]
              rfl
            · right
              rw [hcond.1, hcond.2.1, he, hr]
              rfl
        next => exact Option.noConfusion h

theorem kwAdaptation_capture (s : Chars) (k : Nat) (h : kwAdaptation s = some k) :
    k = 10 ∧ (s.take 10).map lowerChar = strL "adaptation" := by
  rw [kwAdaptation] at h
  cases hl : litCI (strL "adaptation") s with
  | none => rw [hl] at h; exact Option.noConfusion h
  | some m =>
    rw [hl] at h
    injection h with hk
    exact ⟨hk.symm, take_map_of_litCI _ s m hl⟩

theorem kwMutation_capture (s : Chars) (k : Nat) (h : kwMutation s = some k) :
    k = 8 ∧ (s.take 8).map lowerChar = strL "mutation" := by
  rw [kwMutation] at h
  cases hl : litCI (strL "mutation") s with
  | none => rw [hl] at h; exact Option.noConfusion h
  | some m =>
    rw [hl] at h
    injection h with hk
    exact ⟨hk.symm, take_map_of_litCI _ s m hl⟩

theorem posteKeywordAt_capture (s : Chars) (k : Nat) (h : posteKeywordAt s = some k) :
    (opOf ((s.take k).map lowerChar)).isSome = true := by
  rw [posteKeywordAt] at h
  cases hd : kwDeplacement s with
  | some k1 =>
    rw [hd] at h
    injection h with hk
    subst hk
    obtain ⟨hk11, hcap⟩ := kwDeplacement_capture s k1 hd
    subst hk11
    rcases hcap with he | he <;> rw [he] <;> decide
  | none =>
    rw [hd] at h
    cases hc : kwCreation s with
    | some k1 =>
      rw [hc] at h
      injection h with hk
      subst hk
      obtain ⟨hk8, hcap⟩ := kwCreation_capture s k1 hc
      subst hk8
      rcases hcap with he | he <;> rw [he] <;> decide
    | none =>
      rw [hc] at h
      cases ha : kwAdaptation s with
      | some k1 =>
        rw [ha] at h
        injection h with hk
        subst hk
        obtain ⟨hk10, hcap⟩ := kwAdaptation_capture s k1 ha
        subst hk10
        rw [hcap]
        decide
      | none =>
        rw [ha] at h
        obtain ⟨hk8, hcap⟩ := kwMutation_capture s k h
        subst hk8
        rw [hcap]
        decide

theorem posteEvtStartAt_capture (pv : Option Char) (s : Chars) (n : Nat) (kw : Chars)
    (h : posteEvtStartAt pv s = some (n, kw)) :
    (opOf (kw.map lowerChar)).isSome = true := by
  simp only [posteEvtStartAt] at h
  split at h
  next => exact Option.noConfusion h
  next =>
    cases hkw : posteKeywordAt s with
    | none => rw [hkw] at h; exact Option.noConfusion h
    | some k =>
      rw [hkw] at h
      simp only at h
      repeat' split at h
      all_goals try exact Option.noConfusion h
      injection h with h2
      have hkw2 : kw = s.take k := (congrArg Prod.snd h2).symm
      rw [hkw2]
      exact posteKeywordAt_capture s k hkw

theorem extractPosteDpTravaux_of_op (text bloc : Chars) (i n : Nat) (kw : Chars) (op : OpKind)
    (hb : extractFirstPosteBlock text = some bloc)
    (hfm : firstMatchIn posteEvtStartAt bloc = some (i, n, kw))
    (hop : opOf (kw.map lowerChar) = some op) :
    ∃ tr : PosteDpTravaux, extractPosteDpTravaux text = some tr ∧
      tr.operation_principale = some op := by
  simp only [extractPosteDpTravaux, hb, hfm, hop, reduceCtorEq, false_and, if_false]
  exact ⟨_, rfl, rfl⟩

/-- C10 (amended): if no operation-keyword block is found the result is
null; if a block is found AND the truncated block itself still matches the
start pattern, the result is a non-null record whose operation_principale
is non-null. (The unamended claim fails because the 2200-character
truncation can cut the match out of the block.) -/
theorem c10_op_amended (text bloc : Chars) :
    (extractFirstPosteBlock text = none → extractPosteDpTravaux text = none) ∧
    (extractFirstPosteBlock text = some bloc →
      (firstMatchIn posteEvtStartAt bloc).isSome = true →
      ∃ tr : PosteDpTravaux, extractPosteDpTravaux text = some tr ∧
        tr.operation_principale ≠ none) := by
  constructor
  · intro h
    simp [extractPosteDpTravaux, h]
  · intro hb hm
    obtain ⟨⟨i, n, kw⟩, hfm⟩ := Option.isSome_iff_exists.mp hm
    have hcap : (opOf (kw.map lowerChar)).isSome = true := by
      obtain ⟨pv, t, hp⟩ := findFromAux_capture posteEvtStartAt bloc none 0 i n kw hfm
      exact posteEvtStartAt_capture pv t n kw hp
    obtain ⟨op, hopv⟩ := Option.isSome_iff_exists.mp hcap
    obtain ⟨tr, htr, hfield⟩ := extractPosteDpTravaux_of_op text bloc i n kw op hb hfm hopv
    exact ⟨tr, htr, by rw [hfield]; exact fun hc => Option.noConfusion hc⟩

theorem c10_op_amended_witness :
    extractFirstPosteBlock exC10w = some exC10w ∧
    (firstMatchIn posteEvtStartAt exC10w).isSome = true ∧
    ∃ tr : PosteDpTravaux, extractPosteDpTravaux exC10w = some tr ∧
      tr.operation_principale ≠ none :=
  ⟨by decide, by decide,
    (c10_op_amended exC10w exC10w).2 (by decide) (by decide)⟩
